import Mathlib

/-!
Shallow embedding of the resume analysis engine of this repository
(backend/matcher.py, backend/ats_checker.py, backend/grammar_checker.py,
backend/optimizer.py), together with theorems settling the specification's
claims about it.

Texts are modelled as lists of characters; Python floats are modelled as
exact rationals; Python sets of strings are modelled as duplicate-free
lists whose order only feeds order-insensitive operations (sorting,
summation, counting).  All inputs of interest are ASCII, and the
character-class helpers (word characters, upper/lower case, digits,
whitespace) follow Python's behaviour on ASCII.
-/

/-- A Python string, as a list of characters. -/
abbrev Str : Type := List Char

/-- Whitespace as recognized by Python str.split / str.strip (ASCII range). -/
def isPySpace (c : Char) : Bool :=
  c = ' ' || c = '\t' || c = '\n' || c = '\r' || c = '\x0b' || c = '\x0c'

/-- A regex word character (`\w`), ASCII range. -/
def isWordChar (c : Char) : Bool :=
  c.isAlpha || c.isDigit || c = '_'

/-- Wordness of the character preceding the current position (`none` at the
start of the text). -/
def isWordOpt : Option Char → Bool
  | none => false
  | some c => isWordChar c

/-- A `\b` word boundary between a previous character (`none` at text start)
and a current character. -/
def atBoundary (prev : Option Char) (c : Char) : Bool :=
  isWordOpt prev != isWordChar c

/-- Python str.lower (ASCII). -/
def lowerStr (s : Str) : Str := s.map Char.toLower

/-- Helper for `splitWs`; the fuel (at least the list length) makes the
recursion structural, so that the kernel can evaluate it. -/
def splitWsGo : Nat → Str → List Str
  | 0, _ => []
  | _ + 1, [] => []
  | fuel + 1, c :: cs =>
    if isPySpace c then splitWsGo fuel cs
    else
      (c :: cs.takeWhile (fun d => !isPySpace d)) ::
        splitWsGo fuel (cs.dropWhile (fun d => !isPySpace d))

/-- Python str.split() : split on runs of whitespace, dropping empty pieces. -/
def splitWs (s : Str) : List Str := splitWsGo s.length s

/-- Python str.strip() : remove leading and trailing whitespace. -/
def stripWs (s : Str) : Str :=
  ((s.dropWhile isPySpace).reverse.dropWhile isPySpace).reverse

/-- Helper for `splitNl`, carrying the current piece reversed. -/
def splitNlGo : Str → Str → List Str
  | cur, [] => [cur.reverse]
  | cur, c :: cs =>
    if c = '\n' then cur.reverse :: splitNlGo [] cs else splitNlGo (c :: cur) cs

/-- Python text.split('\n') : split on each newline, keeping empty pieces. -/
def splitNl (s : Str) : List Str := splitNlGo [] s

/-- Python `pat in s` for strings: substring containment. -/
def containsStr (s pat : Str) : Bool :=
  (List.range (s.length + 1)).any fun i => pat.isPrefixOf (s.drop i)

/-- Helper for `countSubstr`, with fuel for termination. -/
def countSubstrGo : Nat → Str → Str → Nat
  | 0, _, _ => 0
  | fuel + 1, s, pat =>
    match s with
    | [] => 0
    | _ :: rest =>
      if pat.isPrefixOf s then 1 + countSubstrGo fuel (s.drop pat.length) pat
      else countSubstrGo fuel rest pat

/-- Python s.count(pat) for a non-empty pat: number of non-overlapping
occurrences, scanning from the left. -/
def countSubstr (s pat : Str) : Nat := countSubstrGo s.length s pat

/-- Python string `<=` (lexicographic by code point). -/
def strLe : Str → Str → Bool
  | [], _ => true
  | _ :: _, [] => false
  | a :: as, b :: bs => if a = b then strLe as bs else decide (a < b)

theorem strLe_total : ∀ a b : Str, strLe a b = true ∨ strLe b a = true := by
  intro a
  induction a with
  | nil => intro b; left; rfl
  | cons x xs ih =>
    intro b
    cases b with
    | nil => right; rfl
    | cons y ys =>
      by_cases hxy : x = y
      · subst hxy
        simpa [strLe] using ih ys
      · rcases lt_trichotomy x y with h | h | h
        · left; simp [strLe, hxy, h]
        · exact absurd h hxy
        · right
          have hyx : ¬ y = x := fun e => hxy e.symm
          simp [strLe, hyx, h]

theorem strLe_trans :
    ∀ a b c : Str, strLe a b = true → strLe b c = true → strLe a c = true := by
  intro a
  induction a with
  | nil => intro b c _ _; rfl
  | cons x xs ih =>
    intro b c hab hbc
    cases b with
    | nil => simp [strLe] at hab
    | cons y ys =>
      cases c with
      | nil => simp [strLe] at hbc
      | cons z zs =>
        by_cases hxy : x = y
        · subst hxy
          simp only [strLe, if_pos rfl] at hab
          by_cases hyz : x = z
          · subst hyz
            simp only [strLe, if_pos rfl] at hbc ⊢
            exact ih ys zs hab hbc
          · simp only [strLe, if_neg hyz] at hbc ⊢
            exact hbc
        · simp only [strLe, if_neg hxy, decide_eq_true_eq] at hab
          by_cases hyz : y = z
          · subst hyz
            simp [strLe, hxy, hab]
          · simp only [strLe, if_neg hyz, decide_eq_true_eq] at hbc
            have hxz : x < z := lt_trans hab hbc
            have : ¬ x = z := ne_of_lt hxz
            simp [strLe, this, hxz]

instance : IsTotal Str (fun a b => strLe a b = true) := ⟨strLe_total⟩

instance : IsTrans Str (fun a b => strLe a b = true) :=
  ⟨fun a b c => strLe_trans a b c⟩

/-- Python sorted() on a list of strings. -/
def sortStrs (l : List Str) : List Str :=
  l.insertionSort fun a b => strLe a b = true

theorem sortStrs_perm (l : List Str) : (sortStrs l).Perm l :=
  List.perm_insertionSort _ l

theorem mem_sortStrs {x : Str} {l : List Str} : x ∈ sortStrs l ↔ x ∈ l :=
  (sortStrs_perm l).mem_iff

theorem sortStrs_sorted (l : List Str) :
    (sortStrs l).Sorted (fun a b => strLe a b = true) :=
  List.sorted_insertionSort _ l

/-- Python round() to the nearest integer, halves to even, on exact
rationals (the engine's scores are far from any float rounding anomaly). -/
def pyRoundInt (q : ℚ) : ℤ :=
  if q - ⌊q⌋ < 1 / 2 then ⌊q⌋
  else if 1 / 2 < q - ⌊q⌋ then ⌊q⌋ + 1
  else if ⌊q⌋ % 2 = 0 then ⌊q⌋ else ⌊q⌋ + 1

/-- Python round(x, 1). -/
def round1 (q : ℚ) : ℚ := (pyRoundInt (q * 10) : ℚ) / 10

/-! ## Keyword matcher (backend/matcher.py) -/

/-- Case-insensitive match of a literal alternative at the head of `s`
(the alternatives are stored in lowercase, so only the lowercase form of
the regex alternative matters). -/
def altAtHead (alt s : Str) : Bool :=
  decide (lowerStr (s.take alt.length) = alt)

/-- The `\b` at the end of a match of length `n` at the head of `s`. -/
def endBoundary (n : Nat) (s : Str) : Bool :=
  isWordOpt s[n - 1]? != isWordOpt s[n]?

/-- Ordered-choice over the alternatives of one `\b(?:a1|a2|...)\b` regex:
the regex engine tries the alternatives left to right and moves to the next
alternative when the trailing `\b` fails. -/
def pickAlt (alts : List Str) (s : Str) : Option Str :=
  alts.find? fun a => altAtHead a s && endBoundary a.length s

/-- re.findall of a `\b(?:a1|a2|...)\b` alternation of literals over the text,
case-insensitively, lowercasing each matched span (matcher.py lowercases all
matches before inserting them into the keyword set).  `prev` is the character
before the current position, for the leading `\b`. -/
def scanAltsGo (alts : List Str) : Nat → Option Char → Str → List Str
  | 0, _, _ => []
  | _ + 1, _, [] => []
  | fuel + 1, prev, c :: cs =>
    if atBoundary prev c then
      match pickAlt alts (c :: cs) with
      | some a =>
        lowerStr ((c :: cs).take a.length) ::
          scanAltsGo alts fuel ((c :: cs).take a.length).getLast?
            (cs.drop (a.length - 1))
      | none => scanAltsGo alts fuel (some c) cs
    else scanAltsGo alts fuel (some c) cs

/-- The scan of the whole text, with enough fuel for every position. -/
def scanAlts (alts : List Str) (prev : Option Char) (l : Str) : List Str :=
  scanAltsGo alts l.length prev l

/-- re.findall of `\b[A-Z][a-z]{2,}|[A-Z]{2,}\b` over the text, lowercasing
each matched span.  The first branch needs a leading boundary, an uppercase
letter and a greedy run of at least two lowercase letters; the second branch
is a greedy run of at least two uppercase letters whose trailing boundary can
only hold at the end of the run (backtracking inside the run always fails,
since the next character inside the run is a word character). -/
def capScanGo : Nat → Option Char → Str → List Str
  | 0, _, _ => []
  | _ + 1, _, [] => []
  | fuel + 1, prev, c :: cs =>
    if atBoundary prev c && c.isUpper && 2 ≤ (cs.takeWhile Char.isLower).length then
      lowerStr (c :: cs.take (cs.takeWhile Char.isLower).length) ::
        capScanGo fuel (c :: cs.take (cs.takeWhile Char.isLower).length).getLast?
          (cs.drop (cs.takeWhile Char.isLower).length)
    else if 2 ≤ ((c :: cs).takeWhile Char.isUpper).length &&
        !(isWordOpt (c :: cs)[((c :: cs).takeWhile Char.isUpper).length]?) then
      lowerStr ((c :: cs).take ((c :: cs).takeWhile Char.isUpper).length) ::
        capScanGo fuel ((c :: cs).take ((c :: cs).takeWhile Char.isUpper).length).getLast?
          (cs.drop (((c :: cs).takeWhile Char.isUpper).length - 1))
    else capScanGo fuel (some c) cs

/-- The scan of the whole text, with enough fuel for every position. -/
def capScan (prev : Option Char) (l : Str) : List Str :=
  capScanGo l.length prev l

/-- The five single-token technology alternations of matcher.py, in source
order (alternation order matters to the regex engine; `Node\.?js` expands to
its greedy with-dot form followed by the dotless form). -/
def techPatternAlts : List (List Str) :=
  [ ["react".toList, "angular".toList, "vue".toList, "javascript".toList,
     "typescript".toList, "python".toList, "java".toList, "c++".toList, "c#".toList,
     "ruby".toList, "go".toList, "rust".toList, "swift".toList, "kotlin".toList],
    ["node.js".toList, "nodejs".toList, "django".toList, "flask".toList,
     "spring".toList, "express".toList, "fastapi".toList, "rails".toList],
    ["sql".toList, "postgresql".toList, "mysql".toList, "mongodb".toList,
     "redis".toList, "cassandra".toList, "dynamodb".toList],
    ["aws".toList, "azure".toList, "gcp".toList, "docker".toList,
     "kubernetes".toList, "jenkins".toList, "ci/cd".toList],
    ["git".toList, "github".toList, "gitlab".toList, "jira".toList,
     "agile".toList, "scrum".toList] ]

/-- The three multi-word phrase alternations of matcher.py. -/
def multiwordPatternAlts : List (List Str) :=
  [ ["machine learning".toList, "artificial intelligence".toList,
     "data science".toList, "web development".toList],
    ["software engineer".toList, "full stack".toList, "front end".toList,
     "back end".toList, "devops".toList],
    ["agile methodology".toList, "test driven".toList,
     "continuous integration".toList, "version control".toList] ]

/-- The stop-word list of matcher.py. -/
def commonWords : List Str :=
  ["the".toList, "and".toList, "for".toList, "with".toList, "you".toList,
   "this".toList, "that".toList, "will".toList, "have".toList, "are".toList,
   "from".toList]

/-- KeywordMatcher._extract_keywords: technology alternations, multi-word
alternations, then capitalized words of length at least 3 occurring at least
twice, lowercased, as a set (duplicate-free list), minus the stop words. -/
def extractKeywords (t : Str) : List Str :=
  let tech := (techPatternAlts.map fun alts => scanAlts alts none t).flatten
  let multi := (multiwordPatternAlts.map fun alts => scanAlts alts none t).flatten
  let capsAll := capScan none t
  let caps := capsAll.dedup.filter fun w =>
    decide (2 ≤ capsAll.count w) && decide (3 ≤ w.length)
  (tech ++ multi ++ caps).dedup.filter fun kw => !(commonWords.contains kw)

/-- The synonym classes of matcher.py (dict insertion order preserved). -/
def synonymClasses : List (Str × List Str) :=
  [ ("javascript".toList, ["js".toList, "javascript".toList, "ecmascript".toList]),
    ("react".toList, ["react".toList, "reactjs".toList, "react.js".toList]),
    ("node".toList, ["node".toList, "nodejs".toList, "node.js".toList]),
    ("python".toList, ["python".toList, "py".toList]),
    ("typescript".toList, ["typescript".toList, "ts".toList]),
    ("database".toList, ["database".toList, "db".toList, "sql".toList, "nosql".toList]),
    ("api".toList, ["api".toList, "rest".toList, "restful".toList, "graphql".toList]),
    ("frontend".toList, ["frontend".toList, "front-end".toList, "front end".toList]),
    ("backend".toList, ["backend".toList, "back-end".toList, "back end".toList]),
    ("fullstack".toList, ["fullstack".toList, "full-stack".toList, "full stack".toList]) ]

/-- The synonym check of KeywordMatcher._find_matches: every class containing
the keyword is inspected (the inner loop breaks, the outer one does not). -/
def synMatchAll (kw resumeLower : Str) : Bool :=
  synonymClasses.any fun cl =>
    cl.2.contains kw && cl.2.any fun s => containsStr resumeLower s

/-- The synonym check of KeywordMatcher._find_missing_keywords: only the first
class containing the keyword is inspected (the loop breaks after it). -/
def synMatchFirst (kw resumeLower : Str) : Bool :=
  match synonymClasses.find? (fun cl => cl.2.contains kw) with
  | some cl => cl.2.any fun s => containsStr resumeLower s
  | none => false

/-- KeywordMatcher._find_matches.  The source builds the set as the union of
the direct intersection and the keywords added by the loop over jd keywords;
extensionally that is the subset of jd keywords passing this disjunction. -/
def findMatches (resumeKw jdKw : List Str) (resumeLower : Str) : List Str :=
  jdKw.filter fun kw =>
    resumeKw.contains kw || containsStr resumeLower kw || synMatchAll kw resumeLower

/-- KeywordMatcher._find_missing_keywords (the resume keyword-set parameter is
unused in the source as well). -/
def findMissingKeywords (jdKw _resumeKw : List Str) (resumeLower : Str) : List Str :=
  jdKw.filter fun kw => !(containsStr resumeLower kw || synMatchFirst kw resumeLower)

/-- The importance multiplier of KeywordMatcher._calculate_tfidf. -/
def idfOf (count : Nat) : ℚ :=
  if 2 ≤ count ∧ count ≤ 5 then 2 else if count = 1 then 3 / 2 else 1

/-- One entry of the KeywordMatcher._calculate_tfidf dictionary. -/
def tfidfVal (text kw : Str) : ℚ :=
  let tl := lowerStr text
  let totalWords := (splitWs tl).length
  let count := countSubstr tl (lowerStr kw)
  let tf : ℚ := if 0 < totalWords then (count : ℚ) / (totalWords : ℚ) else 0
  tf * idfOf count

/-- KeywordMatcher._calculate_match_score.  The tfidf dictionary is modelled
by its key set (the jd keywords) and its value function. -/
def calculateMatchScore (matched jdKeywords : List Str) (jdTfidf : Str → ℚ) : ℚ :=
  if jdKeywords.isEmpty then 0
  else
    let baseScore : ℚ := ((matched.length : ℚ) / (jdKeywords.length : ℚ)) * 100
    let matchedWeight : ℚ :=
      (matched.map fun kw => if jdKeywords.contains kw then jdTfidf kw else 1).sum
    let totalWeight : ℚ := (jdKeywords.map jdTfidf).sum
    let weightedScore : ℚ :=
      if 0 < totalWeight then (matchedWeight / totalWeight) * 100 else 0
    min 100 (baseScore * 0.7 + weightedScore * 0.3)

/-- The claim-relevant fields of the dict returned by
KeywordMatcher.match_resume_jd.  The keyword_density and suggestions entries
depend on Python set iteration order (which is unspecified) and are referenced
by no claim, so they are not modelled. -/
structure MatchResult where
  score : ℚ
  match_percentage : ℚ
  found_keywords : List Str
  missing_keywords : List Str
  total_jd_keywords : Nat
  matched_keywords : Nat
deriving Repr, DecidableEq

/-- KeywordMatcher.match_resume_jd. -/
def matchResumeJd (resumeText jdText : Str) : MatchResult :=
  let jdKeywords := extractKeywords jdText
  let resumeKeywords := extractKeywords resumeText
  let jdTfidf := fun kw => tfidfVal jdText kw
  let matched := findMatches resumeKeywords jdKeywords (lowerStr resumeText)
  let missing := findMissingKeywords jdKeywords resumeKeywords (lowerStr resumeText)
  let score := calculateMatchScore matched jdKeywords jdTfidf
  { score := round1 score
    match_percentage := round1 score
    found_keywords := (sortStrs matched).take 20
    missing_keywords := (sortStrs missing).take 15
    total_jd_keywords := jdKeywords.length
    matched_keywords := matched.length }

/-! ## ATS compatibility checker (backend/ats_checker.py) -/

/-- The ATS-friendly section header vocabulary. -/
def standardSections : List Str :=
  ["summary".toList, "objective".toList, "experience".toList,
   "work experience".toList, "employment".toList, "education".toList,
   "skills".toList, "technical skills".toList, "certifications".toList,
   "projects".toList, "achievements".toList, "awards".toList]

/-- ATSChecker._has_table_markers: more than 3 lines containing a double tab
or a run of ten spaces. -/
def hasTableMarkers (t : Str) : Bool :=
  decide (3 < ((splitNl t).filter fun line =>
    containsStr line ("\t\t".toList) || containsStr line ("          ".toList)).length)

/-- The box-drawing character class of ATSChecker._has_complex_formatting. -/
def boxGlyphs : List Char := ['│', '┤', '├', '┼', '─', '━']

/-- ATSChecker._has_complex_formatting: more than 5 box-drawing characters. -/
def hasComplexFormatting (t : Str) : Bool :=
  decide (5 < (t.filter fun c => boxGlyphs.contains c).length)

/-- Python str.isupper (ASCII): at least one cased character, no lowercase. -/
def isUpperPy (s : Str) : Bool := s.any Char.isAlpha && !(s.any Char.isLower)

/-- Helper for `isTitlePy`: carries whether the previous character was cased
and whether a cased character has been seen. -/
def isTitleGo : Bool → Bool → Str → Bool
  | _, seen, [] => seen
  | prevCased, seen, c :: cs =>
    if c.isUpper then !prevCased && isTitleGo true true cs
    else if c.isLower then prevCased && isTitleGo true true cs
    else isTitleGo false seen cs

/-- Python str.istitle (ASCII): uppercase letters only after uncased
characters, lowercase letters only after cased ones, at least one cased. -/
def isTitlePy (s : Str) : Bool := isTitleGo false false s

/-- ATSChecker._check_section_headers: short upper/title-case lines not
containing any standard section word, first 5. -/
def checkSectionHeaders (t : Str) : List Str :=
  ((splitNl t).filterMap fun rawLine =>
    let line := stripWs rawLine
    let words := splitWs line
    if (decide (1 ≤ words.length) && decide (words.length ≤ 4) &&
          decide (line.length < 50)) &&
        (isUpperPy line || isTitlePy line) &&
        !(standardSections.any fun std => containsStr (lowerStr line) std) &&
        decide (3 < line.length)
    then some line else none).take 5

/-- The decorative glyph class of ATSChecker._has_special_chars. -/
def decorativeGlyphs : List Char := ['★', '☆', '●', '○', '■', '□', '▪', '▫', '◆', '◇']

/-- ATSChecker._has_special_chars: more than 10 decorative glyphs. -/
def hasSpecialChars (t : Str) : Bool :=
  decide (10 < (t.filter fun c => decorativeGlyphs.contains c).length)

/-- The local-part character class of the email regex. -/
def emailLocalChar (c : Char) : Bool :=
  c.isAlpha || c.isDigit || c = '.' || c = '_' || c = '%' || c = '+' || c = '-'

/-- The domain character class of the email regex. -/
def emailDomainChar (c : Char) : Bool :=
  c.isAlpha || c.isDigit || c = '.' || c = '-'

/-- The top-level-domain class `[A-Z|a-z]` of the email regex (the `|` inside
the class is a literal character). -/
def emailTldChar (c : Char) : Bool := c.isUpper || c = '|' || c.isLower

/-- Existence of a match of the email regex
`\b[A-Za-z0-9._%+-]+@[A-Za-z0-9.-]+\.[A-Z|a-z]{2,}\b` starting at the head of
`s`, with `prev` the character before it.  The local part is forced to end at
the `@` (its class excludes `@`); the domain/TLD split and the TLD length are
existentially quantified, matching the engine's backtracking. -/
def emailAtHead (prev : Option Char) (s : Str) : Bool :=
  match s with
  | [] => false
  | c :: _ =>
    let localLen := (s.takeWhile emailLocalChar).length
    atBoundary prev c && decide (1 ≤ localLen) &&
      decide (s[localLen]? = some '@') &&
      (let dom := s.drop (localLen + 1)
       (List.range (dom.length + 1)).any fun b =>
         decide (1 ≤ b) && (dom.take b).all emailDomainChar &&
           decide (dom[b]? = some '.') &&
           (let tld := dom.drop (b + 1)
            (List.range (tld.length + 1)).any fun m =>
              decide (2 ≤ m) && (tld.take m).all emailTldChar && endBoundary m tld))

/-- re.search existence for the email regex. -/
def hasEmail : Option Char → Str → Bool
  | _, [] => false
  | prev, c :: cs => emailAtHead prev (c :: cs) || hasEmail (some c) cs

/-- The `[-.\s]` separator class of the phone regex. -/
def phoneSep (c : Char) : Bool := c = '-' || c = '.' || isPySpace c

/-- Consume exactly `n` digits. -/
def dropDigits : Nat → Str → Option Str
  | 0, s => some s
  | _ + 1, [] => none
  | n + 1, c :: cs => if c.isDigit then dropDigits n cs else none

/-- Both continuations of an optional single-character regex element. -/
def optChar (p : Char → Bool) : Str → List Str
  | [] => [[]]
  | c :: cs => if p c then [cs, c :: cs] else [c :: cs]

/-- Existence of a match of the phone regex
`\(?\d{3}\)?[-.\s]?\d{3}[-.\s]?\d{4}` at the head of `s` (the regex has no
anchors, so every combination of the optional elements is tried). -/
def phoneAtHead (s : Str) : Bool :=
  (optChar (· = '(') s).any fun s1 =>
    match dropDigits 3 s1 with
    | none => false
    | some s2 =>
      (optChar (· = ')') s2).any fun s3 =>
        (optChar phoneSep s3).any fun s4 =>
          match dropDigits 3 s4 with
          | none => false
          | some s5 =>
            (optChar phoneSep s5).any fun s6 => (dropDigits 4 s6).isSome

/-- re.search existence for the phone regex. -/
def hasPhone : Str → Bool
  | [] => false
  | c :: cs => phoneAtHead (c :: cs) || hasPhone cs

/-- ATSChecker._has_contact_info. -/
def hasContactInfo (t : Str) : Bool := hasEmail none t || hasPhone t

/-- Count of `\d+%` matches: maximal digit runs immediately followed by `%`
(a shorter backtrack inside a digit run is still followed by a digit, never
by `%`, so only the full greedy run can match). -/
def percentCountGo : Nat → Str → Nat
  | 0, _ => 0
  | _ + 1, [] => 0
  | fuel + 1, c :: cs =>
    if c.isDigit then
      if cs[(cs.takeWhile Char.isDigit).length]? = some '%' then
        1 + percentCountGo fuel (cs.drop ((cs.takeWhile Char.isDigit).length + 1))
      else percentCountGo fuel (cs.drop (cs.takeWhile Char.isDigit).length)
    else percentCountGo fuel cs

/-- The count over the whole text, with enough fuel for every position. -/
def percentCount (s : Str) : Nat := percentCountGo s.length s

/-- The unit-word alternatives of the quantified-achievement regex, in group
order. -/
def metricUnits : List Str :=
  ["million".toList, "billion".toList, "thousand".toList, "hundred".toList,
   "users".toList, "customers".toList, "revenue".toList, "sales".toList]

/-- Count of matches of `\b\d+\s*(million|billion|thousand|hundred|users|
customers|revenue|sales)\b` (IGNORECASE): a leading boundary, a greedy digit
run, a greedy whitespace run, then an ordered-choice unit word with its
trailing boundary.  `prev` is the character before the current position. -/
def unitCountGo : Nat → Option Char → Str → Nat
  | 0, _, _ => 0
  | _ + 1, _, [] => 0
  | fuel + 1, prev, c :: cs =>
    if atBoundary prev c && c.isDigit then
      match pickAlt metricUnits
          ((((c :: cs).drop (1 + (cs.takeWhile Char.isDigit).length)).dropWhile isPySpace)) with
      | some u =>
        1 + unitCountGo fuel
          (((((c :: cs).drop (1 + (cs.takeWhile Char.isDigit).length)).dropWhile isPySpace)).take u.length).getLast?
          ((((c :: cs).drop (1 + (cs.takeWhile Char.isDigit).length)).dropWhile isPySpace).drop u.length)
      | none => unitCountGo fuel (some c) cs
    else unitCountGo fuel (some c) cs

/-- The count over the whole text, with enough fuel for every position. -/
def unitCount (prev : Option Char) (s : Str) : Nat := unitCountGo s.length prev s

/-- ATSChecker._has_metrics: at least 3 combined percentage / number-with-unit
occurrences. -/
def hasMetrics (t : Str) : Bool :=
  decide (3 ≤ percentCount t + unitCount none t)

/-- len(text.split()). -/
def wordCount (t : Str) : Nat := (splitWs t).length

/-- One issue dict of the ATS checker. -/
structure Issue where
  itype : Str
  severity : Str
  message : Str
  fix : Str
deriving Repr, DecidableEq

/-- The issue appended when tables are detected. -/
def tableIssue : Issue :=
  { itype := "tables".toList, severity := "high".toList,
    message := "Tables detected - ATS may not parse correctly".toList,
    fix := "Use simple text formatting instead of tables".toList }

/-- The issue appended when complex formatting is detected. -/
def formattingIssue : Issue :=
  { itype := "formatting".toList, severity := "medium".toList,
    message := "Complex formatting detected".toList,
    fix := "Use simple, clean formatting with standard fonts".toList }

/-- The issue appended for non-standard section headers. -/
def headerIssue (nonStd : List Str) : Issue :=
  { itype := "headers".toList, severity := "medium".toList,
    message := "Non-standard section headers found: ".toList ++
      List.intercalate (", ".toList) (nonStd.take 3),
    fix := "Use standard headers like \"Work Experience\", \"Education\", \"Skills\"".toList }

/-- The issue appended for excessive decorative symbols. -/
def specialCharsIssue : Issue :=
  { itype := "special_chars".toList, severity := "low".toList,
    message := "Excessive special characters or symbols detected".toList,
    fix := "Remove decorative symbols, use simple bullet points".toList }

/-- The issue appended when contact information is missing. -/
def contactIssue : Issue :=
  { itype := "contact".toList, severity := "high".toList,
    message := "Contact information not clearly visible".toList,
    fix := "Add email and phone number at the top of resume".toList }

/-- The issue appended for a too-short resume. -/
def shortIssue : Issue :=
  { itype := "length".toList, severity := "medium".toList,
    message := "Resume appears too short".toList,
    fix := "Expand on your experience and achievements".toList }

/-- The issue appended for a too-long resume. -/
def longIssue : Issue :=
  { itype := "length".toList, severity := "low".toList,
    message := "Resume appears too long".toList,
    fix := "Consider reducing to 1-2 pages".toList }

/-- The issue appended when quantifiable achievements are missing. -/
def metricsIssue : Issue :=
  { itype := "metrics".toList, severity := "medium".toList,
    message := "Few or no quantifiable achievements found".toList,
    fix := "Add numbers, percentages, and measurable results".toList }

/-- One `if cond: issues.append(i); score -= pen` step of
ATSChecker.check_compatibility. -/
def atsStage (cond : Bool) (i : Issue) (pen : ℚ) (acc : List Issue × ℚ) :
    List Issue × ℚ :=
  if cond then (acc.1 ++ [i], acc.2 - pen) else acc

/-- ATSChecker._get_compatibility_rating. -/
def compatibilityRating (score : ℚ) : Str :=
  if 80 ≤ score then "Excellent".toList
  else if 60 ≤ score then "Good".toList
  else if 40 ≤ score then "Fair".toList
  else "Poor".toList

/-- The dict returned by ATSChecker.check_compatibility. -/
structure ComplianceReport where
  score : ℚ
  issues : List Issue
  total_issues : Nat
  compatibility : Str
deriving Repr, DecidableEq

/-- The issue/score accumulator of ATSChecker.check_compatibility after all
eight rules have been applied. -/
def atsAccum (t : Str) : List Issue × ℚ :=
  let acc1 := atsStage (hasTableMarkers t) tableIssue 15 ([], 100)
  let acc2 := atsStage (hasComplexFormatting t) formattingIssue 10 acc1
  let acc3 := atsStage (!(checkSectionHeaders t).isEmpty)
    (headerIssue (checkSectionHeaders t)) 10 acc2
  let acc4 := atsStage (hasSpecialChars t) specialCharsIssue 5 acc3
  let acc5 := atsStage (!hasContactInfo t) contactIssue 15 acc4
  let acc6 :=
    if wordCount t < 200 then (acc5.1 ++ [shortIssue], acc5.2 - 10)
    else if 1500 < wordCount t then (acc5.1 ++ [longIssue], acc5.2 - 5)
    else acc5
  atsStage (!hasMetrics t) metricsIssue 10 acc6

/-- ATSChecker.check_compatibility (the file_type parameter of the source is
never read). -/
def checkCompatibility (t : Str) : ComplianceReport :=
  let score := max 0 (min 100 (atsAccum t).2)
  { score := round1 score
    issues := (atsAccum t).1
    total_issues := (atsAccum t).1.length
    compatibility := compatibilityRating score }

/-! ## Grammar and style checker (backend/grammar_checker.py) -/

/-- The weak filler phrases. -/
def weakPhrases : List Str :=
  ["responsible for".toList, "duties included".toList, "worked on".toList,
   "helped with".toList, "participated in".toList, "assisted with".toList,
   "involved in".toList, "tasked with".toList]

/-- The strong action verbs, in source order. -/
def actionVerbs : List Str :=
  ["achieved".toList, "improved".toList, "increased".toList, "decreased".toList,
   "reduced".toList, "developed".toList, "created".toList, "built".toList,
   "designed".toList, "implemented".toList, "launched".toList, "led".toList,
   "managed".toList, "optimized".toList, "streamlined".toList, "coordinated".toList,
   "executed".toList, "delivered".toList, "drove".toList, "established".toList,
   "generated".toList, "transformed".toList, "pioneered".toList, "spearheaded".toList]

/-- The typo-to-correction table (dict insertion order preserved). -/
def commonErrorsTable : List (Str × Str) :=
  [("experiance".toList, "experience".toList), ("recieve".toList, "receive".toList),
   ("occured".toList, "occurred".toList), ("seperate".toList, "separate".toList),
   ("definately".toList, "definitely".toList), ("sucessful".toList, "successful".toList),
   ("managment".toList, "management".toList), ("develope".toList, "develop".toList)]

/-- Abstraction of Python's global random state: the state is a natural
number, random.choice returns the element at the state modulo the length, and
the state advances by one per call.  This models only that the chosen element
is a function of a mutable state outside the engine's inputs. -/
def randomChoice (g : Nat) (l : List Str) : Str × Nat :=
  (l.getD (g % l.length) [], g + 1)

/-- One issue dict of the grammar checker.  The per-type extra entries
(phrase, error, pronoun, count, word) are carried only inside the message
text here; no claim reads them. -/
structure GIssue where
  gtype : Str
  severity : Str
  message : Str
  suggestion : Str
deriving Repr, DecidableEq

/-- One step of the loop of GrammarChecker._check_weak_language. -/
def weakStep (t : Str) (acc : List GIssue × Nat) (phrase : Str) :
    List GIssue × Nat :=
  if containsStr (lowerStr t) phrase then
    let pick := randomChoice acc.2 actionVerbs
    (acc.1 ++
      [{ gtype := "weak_language".toList, severity := "medium".toList,
         message := "Weak phrase detected: \"".toList ++ phrase ++ "\"".toList,
         suggestion := "Replace with strong action verb (e.g., ".toList ++
           pick.1 ++ ")".toList }],
     pick.2)
  else acc

/-- GrammarChecker._check_weak_language, threading the random state used by
_suggest_action_verb (one random.choice per detected phrase). -/
def checkWeakLanguage (t : Str) (g : Nat) : List GIssue × Nat :=
  weakPhrases.foldl (weakStep t) ([], g)

/-- GrammarChecker._check_spelling. -/
def checkSpelling (t : Str) : List GIssue :=
  commonErrorsTable.filterMap fun ec =>
    if containsStr (lowerStr t) ec.1 then
      some { gtype := "spelling".toList, severity := "high".toList,
             message := "Possible spelling error: \"".toList ++ ec.1 ++ "\"".toList,
             suggestion := "Did you mean \"".toList ++ ec.2 ++ "\"?".toList }
    else none

/-- Match of one passive-voice regex (lead words separated by `\s+`, then
`\w+ed\b`) at the head of `s`, returning the span length.  The `\s+` runs are
greedy and deterministic (the following token starts with a word character);
the trailing `\w+ed\b` matches exactly when the greedy word run has length at
least 3 and ends in `ed` case-insensitively (a boundary strictly inside the
run is impossible). -/
def passiveLead : List Str → Str → Option Nat
  | [], s =>
    if decide (3 ≤ (s.takeWhile isWordChar).length) &&
        decide ((lowerStr (s.take (s.takeWhile isWordChar).length)).drop
          ((s.takeWhile isWordChar).length - 2) = ['e', 'd']) then
      some (s.takeWhile isWordChar).length
    else none
  | w :: rest, s =>
    if altAtHead w s then
      if 1 ≤ ((s.drop w.length).takeWhile isPySpace).length then
        match passiveLead rest
            ((s.drop w.length).drop ((s.drop w.length).takeWhile isPySpace).length) with
        | some n =>
          some (w.length + ((s.drop w.length).takeWhile isPySpace).length + n)
        | none => none
      else none
    else none

/-- re.finditer for one passive-voice regex: non-overlapping matches scanning
left to right, recording the matched spans (original text). -/
def passiveScanGo (lead : List Str) : Nat → Option Char → Str → List Str
  | 0, _, _ => []
  | _ + 1, _, [] => []
  | fuel + 1, prev, c :: cs =>
    if atBoundary prev c then
      match passiveLead lead (c :: cs) with
      | some n =>
        (c :: cs).take n ::
          passiveScanGo lead fuel ((c :: cs).take n).getLast? (cs.drop (n - 1))
      | none => passiveScanGo lead fuel (some c) cs
    else passiveScanGo lead fuel (some c) cs

/-- The scan of the whole text, with enough fuel for every position. -/
def passiveScan (lead : List Str) (prev : Option Char) (l : Str) : List Str :=
  passiveScanGo lead l.length prev l

/-- The lead-word sequences of the five passive-voice regexes, in source
order. -/
def passivePatternLeads : List (List Str) :=
  [["was".toList], ["were".toList], ["has".toList, "been".toList],
   ["have".toList, "been".toList], ["had".toList, "been".toList]]

/-- GrammarChecker._check_passive_voice: per pattern, the first 5 matches. -/
def checkPassiveVoice (t : Str) : List GIssue :=
  (passivePatternLeads.map fun lead =>
    ((passiveScan lead none t).take 5).map fun span =>
      { gtype := "passive_voice".toList, severity := "low".toList,
        message := "Passive voice detected: \"".toList ++ span ++ "\"".toList,
        suggestion := "Use active voice with strong action verbs".toList }).flatten

/-- Decimal representation of a natural number. -/
def natToStr (n : Nat) : Str := (toString n).toList

/-- The first-person pronoun list, exactly as in the source (note that the
source counts the literal `I ` with an uppercase `I` inside the lowercased
text, so that pronoun can never be counted; the embedding preserves this). -/
def firstPersonPronouns : List Str :=
  ["I ".toList, "my ".toList, "me ".toList, "mine ".toList, "we ".toList,
   "our ".toList, "us ".toList]

/-- GrammarChecker._check_first_person. -/
def checkFirstPerson (t : Str) : List GIssue :=
  firstPersonPronouns.filterMap fun pronoun =>
    if 0 < countSubstr (lowerStr ([' '] ++ t ++ [' '])) pronoun then
      some { gtype := "first_person".toList, severity := "medium".toList,
             message := "First person pronoun \"".toList ++ stripWs pronoun ++
               "\" used ".toList ++
               natToStr (countSubstr (lowerStr ([' '] ++ t ++ [' '])) pronoun) ++
               " time(s)".toList,
             suggestion := "Remove first person pronouns; use direct statements".toList }
    else none

/-- GrammarChecker._check_repetition: action verbs whose substring count
exceeds 3, the first three of them. -/
def checkRepetition (t : Str) : List GIssue :=
  ((actionVerbs.filterMap fun verb =>
      if 3 < countSubstr (lowerStr t) verb then
        some (verb, countSubstr (lowerStr t) verb)
      else none).take 3).map fun vc =>
    { gtype := "repetition".toList, severity := "low".toList,
      message := "\"".toList ++ vc.1 ++ "\" used ".toList ++ natToStr vc.2 ++
        " times".toList,
      suggestion := "Vary your action verbs for better impact".toList }

/-- The sentence-terminating punctuation class `[.!?]`. -/
def isSentPunct (c : Char) : Bool := c = '.' || c = '!' || c = '?'

/-- Helper for `splitPunct`, carrying the current piece reversed; the fuel
makes the recursion structural. -/
def splitPunctGo : Nat → Str → Str → List Str
  | 0, cur, _ => [cur.reverse]
  | _ + 1, cur, [] => [cur.reverse]
  | fuel + 1, cur, c :: cs =>
    if isSentPunct c then
      cur.reverse :: splitPunctGo fuel [] (cs.dropWhile isSentPunct)
    else splitPunctGo fuel (c :: cur) cs

/-- re.split(r'[.!?]+', text): pieces between maximal punctuation runs. -/
def splitPunct (t : Str) : List Str := splitPunctGo t.length [] t

/-- The stripped non-empty sentences of GrammarChecker._calculate_readability. -/
def textSentences (t : Str) : List Str :=
  ((splitPunct t).map stripWs).filter fun s => !s.isEmpty

/-- GrammarChecker._calculate_readability (the source's second
total_sentences == 0 test is unreachable after the first and is omitted). -/
def calculateReadability (t : Str) : ℚ :=
  if (textSentences t).isEmpty then 50
  else
    let avg : ℚ := ((splitWs t).length : ℚ) / ((textSentences t).length : ℚ)
    round1
      (if 15 ≤ avg ∧ avg ≤ 20 then 100
       else if 10 ≤ avg ∧ avg < 15 then 90
       else if 20 < avg ∧ avg ≤ 25 then 85
       else if 25 < avg ∧ avg ≤ 30 then 70
       else 60)

/-- GrammarChecker._count_action_verbs. -/
def countActionVerbs (t : Str) : Nat :=
  (actionVerbs.filter fun verb => containsStr (lowerStr t) verb).length

/-- GrammarChecker._get_general_suggestions. -/
def getGeneralSuggestions (issues : List GIssue) : List Str :=
  (if (issues.map fun i => i.gtype).contains ("weak_language".toList) then
    ["Use strong action verbs to start bullet points".toList] else []) ++
  (if (issues.map fun i => i.gtype).contains ("passive_voice".toList) then
    ["Convert passive voice to active voice for impact".toList] else []) ++
  (if (issues.map fun i => i.gtype).contains ("first_person".toList) then
    ["Remove first person pronouns (I, my, we, our)".toList] else []) ++
  (if issues.length < 3 then
    ["Great job! Your resume has strong language".toList] else [])

/-- The dict returned by GrammarChecker.check. -/
structure StyleReport where
  total_issues : Nat
  issues : List GIssue
  readability_score : ℚ
  action_verb_count : Nat
  weak_phrase_count : Nat
  suggestions : List Str
deriving Repr, DecidableEq

/-- GrammarChecker.check, with the global random state threaded explicitly
(only _check_weak_language consumes it). -/
def grammarCheck (t : Str) (g : Nat) : StyleReport × Nat :=
  let weak := checkWeakLanguage t g
  let issues := weak.1 ++ checkSpelling t ++ checkPassiveVoice t ++
    checkFirstPerson t ++ checkRepetition t
  ({ total_issues := issues.length
     issues := issues.take 20
     readability_score := calculateReadability t
     action_verb_count := countActionVerbs t
     weak_phrase_count := weak.1.length
     suggestions := getGeneralSuggestions issues }, weak.2)

/-! ## Optimizer (backend/optimizer.py) -/

/-- One suggestion dict of ResumeOptimizer._prioritize_fixes. -/
structure PriorityFix where
  priority : Nat
  category : Str
  issue : Str
  fix : Str
deriving Repr, DecidableEq

/-- The priority-1 entries built from the first 3 high-severity ATS issues. -/
def pfHighAts (atsIssues : List Issue) : List PriorityFix :=
  ((atsIssues.filter fun i => decide (i.severity = "high".toList)).take 3).map fun i =>
    { priority := 1, category := "ATS Compatibility".toList,
      issue := i.message, fix := i.fix }

/-- The priority-1 entry built when more than 5 keywords are missing. -/
def pfKeywords (missingKeywords : List Str) : List PriorityFix :=
  if 5 < missingKeywords.length then
    [{ priority := 1, category := "Keywords".toList,
       issue := natToStr missingKeywords.length ++
         " important keywords missing".toList,
       fix := "Add key terms: ".toList ++
         List.intercalate (", ".toList) (missingKeywords.take 5) }]
  else []

/-- The priority-2 entries built from the first 2 high-severity grammar
issues. -/
def pfHighGrammar (grammarIssues : List GIssue) : List PriorityFix :=
  ((grammarIssues.filter fun i => decide (i.severity = "high".toList)).take 2).map fun i =>
    { priority := 2, category := "Grammar & Style".toList,
      issue := i.message, fix := i.suggestion }

/-- The priority-2 entries built from the first 2 medium-severity ATS
issues. -/
def pfMedAts (atsIssues : List Issue) : List PriorityFix :=
  ((atsIssues.filter fun i => decide (i.severity = "medium".toList)).take 2).map fun i =>
    { priority := 2, category := "ATS Compatibility".toList,
      issue := i.message, fix := i.fix }

/-- ResumeOptimizer._prioritize_fixes. -/
def prioritizeFixes (atsIssues : List Issue) (grammarIssues : List GIssue)
    (missingKeywords : List Str) : List PriorityFix :=
  (pfHighAts atsIssues ++ pfKeywords missingKeywords ++
    pfHighGrammar grammarIssues ++ pfMedAts atsIssues).take 10

/-- The five sentence templates of ResumeOptimizer._create_impact_statements
(the braces of the placeholder slots are written with character escapes). -/
def impactTemplates : List Str :=
  ["Developed \x7bkeyword\x7d-based solutions that improved \x7bmetric\x7d by \x7bpercentage\x7d%".toList,
   "Implemented \x7bkeyword\x7d to optimize \x7barea\x7d, resulting in \x7bbenefit\x7d".toList,
   "Led team using \x7bkeyword\x7d to deliver \x7boutcome\x7d ahead of schedule".toList,
   "Architected scalable \x7bkeyword\x7d system supporting \x7bnumber\x7d users".toList,
   "Utilized \x7bkeyword\x7d to reduce \x7bmetric\x7d by \x7bpercentage\x7d%".toList]

/-- Helper for `replaceAll`, with fuel for termination. -/
def replaceAllGo : Nat → Str → Str → Str → Str
  | 0, s, _, _ => s
  | fuel + 1, s, pat, new =>
    match s with
    | [] => []
    | c :: rest =>
      if pat.isPrefixOf s && !pat.isEmpty then
        new ++ replaceAllGo fuel (s.drop pat.length) pat new
      else c :: replaceAllGo fuel rest pat new

/-- Python s.replace(pat, new) for non-empty pat: replace all non-overlapping
occurrences, scanning from the left. -/
def replaceAll (s pat new : Str) : Str := replaceAllGo s.length s pat new

/-- The placeholder substitutions applied to a chosen template. -/
def fillTemplate (tmpl kw : Str) : Str :=
  replaceAll
    (replaceAll
      (replaceAll
        (replaceAll
          (replaceAll
            (replaceAll
              (replaceAll tmpl ("\x7bkeyword\x7d".toList) kw)
              ("\x7bmetric\x7d".toList) ("performance".toList))
            ("\x7bpercentage\x7d".toList) ("30".toList))
          ("\x7barea\x7d".toList) ("workflow".toList))
        ("\x7bbenefit\x7d".toList) ("faster deployment cycles".toList))
      ("\x7boutcome\x7d".toList) ("production release".toList))
    ("\x7bnumber\x7d".toList) ("10,000+".toList)

/-- One statement dict of ResumeOptimizer._create_impact_statements (the
source key 'example' is a Lean keyword, hence exampleText). -/
structure ImpactStatement where
  keyword : Str
  exampleText : Str
  tip : Str
deriving Repr, DecidableEq

/-- One step of the loop of ResumeOptimizer._create_impact_statements. -/
def impactStep (acc : List ImpactStatement × Nat) (kw : Str) :
    List ImpactStatement × Nat :=
  let pick := randomChoice acc.2 impactTemplates
  (acc.1 ++
    [{ keyword := kw, exampleText := fillTemplate pick.1 kw,
       tip := "Customize this example with your actual achievements".toList }],
   pick.2)

/-- ResumeOptimizer._create_impact_statements, threading the random state
(one random.choice per keyword, up to 5). -/
def createImpactStatements (missingKeywords : List Str) (g : Nat) :
    List ImpactStatement × Nat :=
  (missingKeywords.take 5).foldl impactStep ([], g)

/-! ## Basic lemmas about the embedding -/

theorem pyRoundInt_intCast (n : ℤ) : pyRoundInt (n : ℚ) = n := by
  unfold pyRoundInt
  rw [Int.floor_intCast]
  norm_num

theorem round1_intCast (n : ℤ) : round1 (n : ℚ) = n := by
  unfold round1
  have h : ((n : ℚ) * 10) = ((n * 10 : ℤ) : ℚ) := by push_cast; ring
  rw [h, pyRoundInt_intCast]
  push_cast
  ring

theorem pyRoundInt_nonneg {q : ℚ} (h : 0 ≤ q) : 0 ≤ pyRoundInt q := by
  have hf : 0 ≤ ⌊q⌋ := Int.floor_nonneg.mpr h
  unfold pyRoundInt
  split_ifs <;> omega

theorem pyRoundInt_le {q : ℚ} {B : ℤ} (h : q ≤ B) : pyRoundInt q ≤ B := by
  have hfl : ⌊q⌋ ≤ B := by
    calc ⌊q⌋ ≤ ⌊(B : ℚ)⌋ := Int.floor_mono h
    _ = B := Int.floor_intCast B
  have hkey : ¬ q - ⌊q⌋ < 1 / 2 → ⌊q⌋ + 1 ≤ B := by
    intro h1
    by_contra hc
    push_neg at hc
    have hBf : B ≤ ⌊q⌋ := by omega
    have hBfq : (B : ℚ) ≤ (⌊q⌋ : ℚ) := by exact_mod_cast hBf
    have : q - ⌊q⌋ ≤ 0 := by linarith
    exact h1 (by linarith)
  unfold pyRoundInt
  split_ifs with h1 h2 h3
  · exact hfl
  · exact hkey h1
  · exact hfl
  · exact hkey h1

theorem round1_nonneg {q : ℚ} (h : 0 ≤ q) : 0 ≤ round1 q := by
  unfold round1
  have : (0 : ℤ) ≤ pyRoundInt (q * 10) := pyRoundInt_nonneg (by linarith)
  have hcast : (0 : ℚ) ≤ (pyRoundInt (q * 10) : ℚ) := by exact_mod_cast this
  linarith [div_nonneg hcast (by norm_num : (0 : ℚ) ≤ 10)]

theorem round1_le_hundred {q : ℚ} (h : q ≤ 100) : round1 q ≤ 100 := by
  unfold round1
  have h1 : pyRoundInt (q * 10) ≤ (1000 : ℤ) := pyRoundInt_le (by push_cast; linarith)
  have h2 : (pyRoundInt (q * 10) : ℚ) ≤ 1000 := by exact_mod_cast h1
  linarith

theorem containsStr_iff {s pat : Str} :
    containsStr s pat = true ↔ ∃ i, i ≤ s.length ∧ pat <+: s.drop i := by
  unfold containsStr
  simp only [List.any_eq_true, List.mem_range, Nat.lt_succ_iff,
    List.isPrefixOf_iff_prefix]

theorem containsStr_of_infix {s pat : Str} (h : pat <:+: s) :
    containsStr s pat = true := by
  obtain ⟨u, v, huv⟩ := h
  rw [containsStr_iff]
  refine ⟨u.length, ?_, ?_⟩
  · have := congrArg List.length huv
    simp only [List.length_append] at this
    omega
  · have hd : s.drop u.length = pat ++ v := by
      rw [← huv, List.append_assoc, List.drop_left]
    rw [hd]
    exact List.prefix_append pat v

theorem mem_of_containsStr {s pat : Str} (h : containsStr s pat = true) :
    ∀ c ∈ pat, c ∈ s := by
  rw [containsStr_iff] at h
  obtain ⟨i, _, hpre⟩ := h
  intro c hc
  exact List.drop_subset i s (hpre.sublist.subset hc)

theorem containsStr_eq_false {s pat : Str} (c : Char) (hc : c ∈ pat)
    (hnc : c ∉ s) : containsStr s pat = false := by
  cases hb : containsStr s pat with
  | false => rfl
  | true => exact absurd (mem_of_containsStr hb c hc) hnc

theorem countSubstrGo_eq_zero (fuel : Nat) (s pat : Str) (c : Char)
    (hc : c ∈ pat) (hnc : c ∉ s) : countSubstrGo fuel s pat = 0 := by
  induction fuel generalizing s with
  | zero => rfl
  | succ n ih =>
    cases s with
    | nil => rfl
    | cons d rest =>
      have hpre : pat.isPrefixOf (d :: rest) = false := by
        cases hb : pat.isPrefixOf (d :: rest) with
        | false => rfl
        | true =>
          rw [List.isPrefixOf_iff_prefix] at hb
          exact absurd (hb.sublist.subset hc) hnc
      simp only [countSubstrGo, hpre, Bool.false_eq_true, if_false]
      exact ih rest (fun hmem => hnc (List.mem_cons_of_mem d hmem))

theorem countSubstr_eq_zero {s pat : Str} (c : Char) (hc : c ∈ pat)
    (hnc : c ∉ s) : countSubstr s pat = 0 :=
  countSubstrGo_eq_zero s.length s pat c hc hnc

theorem scanAltsGo_infix {alts : List Str} (fuel : Nat) (prev : Option Char)
    (l : Str) :
    ∀ x ∈ scanAltsGo alts fuel prev l, ∃ m : Str, m <:+: l ∧ x = lowerStr m := by
  induction fuel, prev, l using scanAltsGo.induct alts with
  | case1 prev l =>
    intro x hx
    simp [scanAltsGo] at hx
  | case2 fuel prev =>
    intro x hx
    simp [scanAltsGo] at hx
  | case3 fuel prev c cs hb a hpick ih =>
    intro x hx
    rw [scanAltsGo, if_pos hb, hpick] at hx
    rcases List.mem_cons.mp hx with hx | hx
    · exact ⟨(c :: cs).take a.length, (List.take_prefix _ _).isInfix, hx⟩
    · obtain ⟨m, hm, hxm⟩ := ih x hx
      exact ⟨m, List.infix_cons (hm.trans (List.drop_suffix _ _).isInfix), hxm⟩
  | case4 fuel prev c cs hb hpick ih =>
    intro x hx
    rw [scanAltsGo, if_pos hb, hpick] at hx
    obtain ⟨m, hm, hxm⟩ := ih x hx
    exact ⟨m, List.infix_cons hm, hxm⟩
  | case5 fuel prev c cs hb ih =>
    intro x hx
    rw [scanAltsGo, if_neg hb] at hx
    obtain ⟨m, hm, hxm⟩ := ih x hx
    exact ⟨m, List.infix_cons hm, hxm⟩

theorem scanAlts_infix {alts : List Str} (prev : Option Char) (l : Str) :
    ∀ x ∈ scanAlts alts prev l, ∃ m : Str, m <:+: l ∧ x = lowerStr m :=
  scanAltsGo_infix l.length prev l

theorem capScanGo_infix (fuel : Nat) (prev : Option Char) (l : Str) :
    ∀ x ∈ capScanGo fuel prev l, ∃ m : Str, m <:+: l ∧ x = lowerStr m := by
  induction fuel, prev, l using capScanGo.induct with
  | case1 prev l =>
    intro x hx
    simp [capScanGo] at hx
  | case2 fuel prev =>
    intro x hx
    simp [capScanGo] at hx
  | case3 fuel prev c cs hb ih =>
    intro x hx
    rw [capScanGo, if_pos hb] at hx
    rcases List.mem_cons.mp hx with hx | hx
    · refine ⟨c :: cs.take (cs.takeWhile Char.isLower).length, ?_, hx⟩
      have hts : c :: cs.take (cs.takeWhile Char.isLower).length =
          (c :: cs).take ((cs.takeWhile Char.isLower).length + 1) := by
        simp [List.take_succ_cons]
      rw [hts]
      exact (List.take_prefix _ _).isInfix
    · obtain ⟨m, hm, hxm⟩ := ih x hx
      exact ⟨m, List.infix_cons (hm.trans (List.drop_suffix _ _).isInfix), hxm⟩
  | case4 fuel prev c cs hb1 hb2 ih =>
    intro x hx
    rw [capScanGo, if_neg hb1, if_pos hb2] at hx
    rcases List.mem_cons.mp hx with hx | hx
    · exact ⟨(c :: cs).take ((c :: cs).takeWhile Char.isUpper).length,
        (List.take_prefix _ _).isInfix, hx⟩
    · obtain ⟨m, hm, hxm⟩ := ih x hx
      exact ⟨m, List.infix_cons (hm.trans (List.drop_suffix _ _).isInfix), hxm⟩
  | case5 fuel prev c cs hb1 hb2 ih =>
    intro x hx
    rw [capScanGo, if_neg hb1, if_neg hb2] at hx
    obtain ⟨m, hm, hxm⟩ := ih x hx
    exact ⟨m, List.infix_cons hm, hxm⟩

theorem capScan_infix (prev : Option Char) (l : Str) :
    ∀ x ∈ capScan prev l, ∃ m : Str, m <:+: l ∧ x = lowerStr m :=
  capScanGo_infix l.length prev l

/-- Every extracted keyword is, as the lowercased image of a matched span of
the text, a substring of the lowercased text. -/
theorem extractKeywords_contains {t kw : Str} (h : kw ∈ extractKeywords t) :
    containsStr (lowerStr t) kw = true := by
  have key : ∃ m : Str, m <:+: t ∧ kw = lowerStr m := by
    unfold extractKeywords at h
    rw [List.mem_filter] at h
    obtain ⟨hmem, -⟩ := h
    rw [List.mem_dedup, List.mem_append, List.mem_append] at hmem
    rcases hmem with (htech | hmulti) | hcaps
    · rw [List.mem_flatten] at htech
      obtain ⟨piece, hpiece, hkw⟩ := htech
      rw [List.mem_map] at hpiece
      obtain ⟨alts, -, rfl⟩ := hpiece
      exact scanAlts_infix none t kw hkw
    · rw [List.mem_flatten] at hmulti
      obtain ⟨piece, hpiece, hkw⟩ := hmulti
      rw [List.mem_map] at hpiece
      obtain ⟨alts, -, rfl⟩ := hpiece
      exact scanAlts_infix none t kw hkw
    · rw [List.mem_filter, List.mem_dedup] at hcaps
      exact capScan_infix none t kw hcaps.1
  obtain ⟨m, hm, rfl⟩ := key
  exact containsStr_of_infix (List.IsInfix.map Char.toLower hm)

theorem mem_of_contains {l : List Str} {x : Str} (h : l.contains x = true) :
    x ∈ l := by
  simpa using h

theorem contains_of_mem {l : List Str} {x : Str} (h : x ∈ l) :
    l.contains x = true := by
  simpa using h

/-- The synonym classes are pairwise disjoint. -/
theorem synonymClasses_disjoint :
    synonymClasses.Pairwise (fun a b => ∀ x ∈ a.2, x ∉ b.2) := by
  decide

theorem find?_eq_of_mem_disjoint {L : List (Str × List Str)} {kw : Str}
    (hdisj : L.Pairwise (fun a b => ∀ x ∈ a.2, x ∉ b.2))
    {c : Str × List Str} (hc : c ∈ L) (hkw : kw ∈ c.2) :
    L.find? (fun e => e.2.contains kw) = some c := by
  induction L with
  | nil => cases hc
  | cons hd tl ih =>
    rw [List.pairwise_cons] at hdisj
    rcases List.mem_cons.mp hc with rfl | hctl
    · exact List.find?_cons_of_pos tl (contains_of_mem hkw)
    · have hhd : ¬ (hd.2.contains kw = true) := fun hcont =>
        hdisj.1 c hctl kw (mem_of_contains hcont) hkw
      rw [List.find?_cons_of_neg tl hhd]
      exact ih hdisj.2 hctl

/-- If any synonym class containing the keyword has a variant present in the
resume, so does the first such class: the classes are pairwise disjoint, so
the first class containing the keyword is the only one. -/
theorem synMatchFirst_of_all {kw r : Str} (h : synMatchAll kw r = true) :
    synMatchFirst kw r = true := by
  unfold synMatchAll at h
  rw [List.any_eq_true] at h
  obtain ⟨cl, hcl, hcond⟩ := h
  rw [Bool.and_eq_true] at hcond
  unfold synMatchFirst
  rw [find?_eq_of_mem_disjoint synonymClasses_disjoint hcl
    (mem_of_contains hcond.1)]
  exact hcond.2

/-- A keyword reported as matched is never reported as missing: direct
keyword-set matches are substrings of the lowered resume (extraction), and
the all-classes synonym check implies the first-class one (disjointness). -/
theorem matches_missing_disjoint {resume jd kw : Str}
    (hm : kw ∈ findMatches (extractKeywords resume) (extractKeywords jd)
      (lowerStr resume))
    (hmiss : kw ∈ findMissingKeywords (extractKeywords jd)
      (extractKeywords resume) (lowerStr resume)) : False := by
  unfold findMatches at hm
  unfold findMissingKeywords at hmiss
  rw [List.mem_filter] at hm hmiss
  have hncond := hmiss.2
  rw [Bool.not_eq_true', Bool.or_eq_false_iff] at hncond
  have hcond := hm.2
  rw [Bool.or_eq_true, Bool.or_eq_true] at hcond
  rcases hcond with (hdirect | hpresent) | hsyn
  · exact absurd (extractKeywords_contains (mem_of_contains hdirect))
      (by simp [hncond.1])
  · exact absurd hpresent (by simp [hncond.1])
  · exact absurd (synMatchFirst_of_all hsyn) (by simp [hncond.2])

theorem tfidfVal_nonneg (text kw : Str) : 0 ≤ tfidfVal text kw := by
  simp only [tfidfVal, idfOf]
  split_ifs <;> positivity

theorem min_clamp_bounds {b w : ℚ} (hb : 0 ≤ b) (hw : 0 ≤ w) :
    0 ≤ min 100 (b * 0.7 + w * 0.3) ∧ min 100 (b * 0.7 + w * 0.3) ≤ 100 :=
  ⟨le_min (by norm_num) (by nlinarith), min_le_left _ _⟩

/-- Bounds for the match score when the matched list is a sub-filter of the
jd keyword list and the weights are non-negative. -/
theorem calculateMatchScore_bounds {jdK : List Str} {p : Str → Bool}
    {f : Str → ℚ} (hf : ∀ x ∈ jdK, 0 ≤ f x) :
    0 ≤ calculateMatchScore (jdK.filter p) jdK f ∧
      calculateMatchScore (jdK.filter p) jdK f ≤ 100 := by
  unfold calculateMatchScore
  by_cases hE : jdK.isEmpty
  · rw [if_pos hE]
    norm_num
  · rw [if_neg hE]
    have hbase : 0 ≤ ((jdK.filter p).length : ℚ) / (jdK.length : ℚ) * 100 := by
      positivity
    have hws : 0 ≤ (if 0 < (jdK.map f).sum then
        ((jdK.filter p).map fun kw => if jdK.contains kw then f kw else 1).sum /
          (jdK.map f).sum * 100 else 0) := by
      split_ifs with htw
      · have hmw : 0 ≤ ((jdK.filter p).map fun kw =>
            if jdK.contains kw then f kw else 1).sum := by
          apply List.sum_nonneg
          intro q hq
          rw [List.mem_map] at hq
          obtain ⟨x, hx, rfl⟩ := hq
          have hx' : x ∈ jdK := List.mem_of_mem_filter hx
          rw [if_pos (contains_of_mem hx')]
          exact hf x hx'
        exact mul_nonneg (div_nonneg hmw htw.le) (by norm_num)
      · exact le_refl 0
    have hsum : 0 ≤ ((jdK.filter p).length : ℚ) / (jdK.length : ℚ) * 100 * 0.7 +
        (if 0 < (jdK.map f).sum then
          ((jdK.filter p).map fun kw => if jdK.contains kw then f kw else 1).sum /
            (jdK.map f).sum * 100 else 0) * 0.3 := by
      nlinarith
    exact ⟨le_min (by norm_num) hsum, min_le_left _ _⟩

theorem round1_zero : round1 0 = 0 := by
  have h := round1_intCast 0
  simpa using h

theorem matchResumeJd_score_eq (r j : Str) :
    (matchResumeJd r j).score =
      round1 (calculateMatchScore
        (findMatches (extractKeywords r) (extractKeywords j) (lowerStr r))
        (extractKeywords j) (fun kw => tfidfVal j kw)) := rfl

theorem matchResumeJd_found_eq (r j : Str) :
    (matchResumeJd r j).found_keywords =
      (sortStrs (findMatches (extractKeywords r) (extractKeywords j)
        (lowerStr r))).take 20 := rfl

theorem matchResumeJd_missing_eq (r j : Str) :
    (matchResumeJd r j).missing_keywords =
      (sortStrs (findMissingKeywords (extractKeywords j) (extractKeywords r)
        (lowerStr r))).take 15 := rfl

theorem matchResumeJd_score_bounds (r j : Str) :
    0 ≤ (matchResumeJd r j).score ∧ (matchResumeJd r j).score ≤ 100 := by
  rw [matchResumeJd_score_eq]
  have hb := @calculateMatchScore_bounds (extractKeywords j)
    (fun kw => (extractKeywords r).contains kw ||
      containsStr (lowerStr r) kw || synMatchAll kw (lowerStr r))
    (fun kw => tfidfVal j kw)
    (fun x _ => tfidfVal_nonneg j x)
  exact ⟨round1_nonneg hb.1, round1_le_hundred hb.2⟩

theorem matchResumeJd_disjoint (r j : Str) :
    ∀ kw ∈ (matchResumeJd r j).found_keywords,
      kw ∉ (matchResumeJd r j).missing_keywords := by
  intro kw hf hm
  rw [matchResumeJd_found_eq] at hf
  rw [matchResumeJd_missing_eq] at hm
  exact matches_missing_disjoint
    (mem_sortStrs.mp (List.mem_of_mem_take hf))
    (mem_sortStrs.mp (List.mem_of_mem_take hm))

theorem matchResumeJd_empty_jd {j : Str} (r : Str) (h : extractKeywords j = []) :
    (matchResumeJd r j).score = 0 ∧ (matchResumeJd r j).found_keywords = [] ∧
      (matchResumeJd r j).missing_keywords = [] := by
  refine ⟨?_, ?_, ?_⟩
  · rw [matchResumeJd_score_eq, h]
    have : calculateMatchScore
        (findMatches (extractKeywords r) [] (lowerStr r)) []
        (fun kw => tfidfVal j kw) = 0 := rfl
    rw [this, round1_zero]
  · rw [matchResumeJd_found_eq, h]
    rfl
  · rw [matchResumeJd_missing_eq, h]
    rfl

theorem toLower_of_isPySpace {c : Char} (h : isPySpace c = true) :
    Char.toLower c = c := by
  simp only [isPySpace, Bool.or_eq_true, decide_eq_true_eq] at h
  rcases h with ((((h | h) | h) | h) | h) | h <;> subst h <;> decide

theorem not_isUpper_of_isPySpace {c : Char} (h : isPySpace c = true) :
    c.isUpper = false := by
  simp only [isPySpace, Bool.or_eq_true, decide_eq_true_eq] at h
  rcases h with ((((h | h) | h) | h) | h) | h <;> subst h <;> decide

theorem scanAltsGo_all_ws {alts : List Str}
    (halts : ∀ a ∈ alts, a = [] ∨ isPySpace a.headI = false) :
    ∀ (fuel : Nat) (prev : Option Char) (l : Str),
      (∀ c ∈ l, isPySpace c = true) → scanAltsGo alts fuel prev l = [] := by
  intro fuel prev l
  induction fuel, prev, l using scanAltsGo.induct alts with
  | case1 prev l => intro _; rw [scanAltsGo]
  | case2 fuel prev => intro _; rw [scanAltsGo]
  | case3 fuel prev c cs hb a hpick ih =>
    intro hl
    exfalso
    have hc : isPySpace c = true := hl c (List.mem_cons_self c cs)
    have hpred := List.find?_some hpick
    rw [Bool.and_eq_true] at hpred
    obtain ⟨hAlt, hEnd⟩ := hpred
    have hamem : a ∈ alts := List.mem_of_find?_eq_some hpick
    cases a with
    | nil => simp [endBoundary] at hEnd
    | cons h t =>
      have hEq := of_decide_eq_true hAlt
      rw [List.length_cons, List.take_succ_cons] at hEq
      unfold lowerStr at hEq
      rw [List.map_cons] at hEq
      have hhead : Char.toLower c = h := (List.cons_eq_cons.mp hEq).1
      have hns := halts (h :: t) hamem
      rcases hns with hns | hns
      · exact List.cons_ne_nil h t hns
      · rw [List.headI] at hns
        rw [← hhead, toLower_of_isPySpace hc] at hns
        rw [hc] at hns
        exact Bool.true_eq_false.mp hns
  | case4 fuel prev c cs hb hpick ih =>
    intro hl
    rw [scanAltsGo, if_pos hb, hpick]
    exact ih fun d hd => hl d (List.mem_cons_of_mem c hd)
  | case5 fuel prev c cs hb ih =>
    intro hl
    rw [scanAltsGo, if_neg hb]
    exact ih fun d hd => hl d (List.mem_cons_of_mem c hd)

theorem scanAlts_all_ws {alts : List Str}
    (halts : ∀ a ∈ alts, a = [] ∨ isPySpace a.headI = false)
    (prev : Option Char) (l : Str) (hl : ∀ c ∈ l, isPySpace c = true) :
    scanAlts alts prev l = [] :=
  scanAltsGo_all_ws halts l.length prev l hl

theorem capScanGo_all_ws :
    ∀ (fuel : Nat) (prev : Option Char) (l : Str),
      (∀ c ∈ l, isPySpace c = true) → capScanGo fuel prev l = [] := by
  intro fuel prev l
  induction fuel, prev, l using capScanGo.induct with
  | case1 prev l => intro _; rw [capScanGo]
  | case2 fuel prev => intro _; rw [capScanGo]
  | case3 fuel prev c cs hb ih =>
    intro hl
    exfalso
    have hc : isPySpace c = true := hl c (List.mem_cons_self c cs)
    rw [Bool.and_eq_true, Bool.and_eq_true] at hb
    have hup := hb.1.2
    rw [not_isUpper_of_isPySpace hc] at hup
    exact Bool.false_ne_true hup
  | case4 fuel prev c cs hb1 hb2 ih =>
    intro hl
    exfalso
    have hc : isPySpace c = true := hl c (List.mem_cons_self c cs)
    rw [Bool.and_eq_true] at hb2
    have hrun : (c :: cs).takeWhile Char.isUpper = [] := by
      rw [List.takeWhile_cons, not_isUpper_of_isPySpace hc]
      rfl
    have hlen := of_decide_eq_true hb2.1
    rw [hrun] at hlen
    simp at hlen
  | case5 fuel prev c cs hb1 hb2 ih =>
    intro hl
    rw [capScanGo, if_neg hb1, if_neg hb2]
    exact ih fun d hd => hl d (List.mem_cons_of_mem c hd)

theorem capScan_all_ws (prev : Option Char) (l : Str)
    (hl : ∀ c ∈ l, isPySpace c = true) : capScan prev l = [] :=
  capScanGo_all_ws l.length prev l hl

/-- Keyword extraction from whitespace-only text yields the empty set. -/
theorem extractKeywords_ws_nil {t : Str} (ht : ∀ c ∈ t, isPySpace c = true) :
    extractKeywords t = [] := by
  have hheads1 : ∀ alts ∈ techPatternAlts,
      ∀ a ∈ alts, a = [] ∨ isPySpace a.headI = false := by decide
  have hheads2 : ∀ alts ∈ multiwordPatternAlts,
      ∀ a ∈ alts, a = [] ∨ isPySpace a.headI = false := by decide
  unfold extractKeywords
  have h1 : (techPatternAlts.map fun alts => scanAlts alts none t) =
      techPatternAlts.map fun _ => ([] : List Str) :=
    List.map_congr_left fun alts ha =>
      scanAlts_all_ws (hheads1 alts ha) none t ht
  have h2 : (multiwordPatternAlts.map fun alts => scanAlts alts none t) =
      multiwordPatternAlts.map fun _ => ([] : List Str) :=
    List.map_congr_left fun alts ha =>
      scanAlts_all_ws (hheads2 alts ha) none t ht
  rw [h1, h2, capScan_all_ws none t ht]
  decide

theorem toLower_not_alpha {c : Char}
    (h : isPySpace c = true ∨ isSentPunct c = true) :
    (Char.toLower c).isAlpha = false := by
  rcases h with h | h
  · simp only [isPySpace, Bool.or_eq_true, decide_eq_true_eq] at h
    rcases h with ((((h | h) | h) | h) | h) | h <;> subst h <;> decide
  · simp only [isSentPunct, Bool.or_eq_true, decide_eq_true_eq] at h
    rcases h with (h | h) | h <;> subst h <;> decide

theorem splitPunctGo_all_ws :
    ∀ (fuel : Nat) (cur l : Str), (∀ c ∈ cur, isPySpace c = true) →
      (∀ c ∈ l, isPySpace c = true ∨ isSentPunct c = true) →
      ∀ p ∈ splitPunctGo fuel cur l, ∀ c ∈ p, isPySpace c = true := by
  intro fuel cur l
  induction fuel, cur, l using splitPunctGo.induct with
  | case1 cur l =>
    intro hcur _ p hp c hc
    rw [splitPunctGo] at hp
    rcases List.mem_singleton.mp hp with rfl
    exact hcur c (List.mem_reverse.mp hc)
  | case2 fuel cur =>
    intro hcur _ p hp c hc
    rw [splitPunctGo] at hp
    rcases List.mem_singleton.mp hp with rfl
    exact hcur c (List.mem_reverse.mp hc)
  | case3 fuel cur c cs hpunct ih =>
    intro hcur hl p hp d hd
    rw [splitPunctGo, if_pos hpunct] at hp
    rcases List.mem_cons.mp hp with rfl | hp
    · exact hcur d (List.mem_reverse.mp hd)
    · refine ih (by intro e he; cases he) ?_ p hp d hd
      intro e he
      exact hl e (List.mem_cons_of_mem c ((List.dropWhile_sublist _).subset he))
  | case4 fuel cur c cs hpunct ih =>
    intro hcur hl p hp d hd
    rw [splitPunctGo, if_neg hpunct] at hp
    have hcws : isPySpace c = true := by
      rcases hl c (List.mem_cons_self c cs) with h | h
      · exact h
      · exact absurd h hpunct
    refine ih ?_ (fun e he => hl e (List.mem_cons_of_mem c he)) p hp d hd
    intro e he
    rcases List.mem_cons.mp he with rfl | he
    · exact hcws
    · exact hcur e he

theorem stripWs_eq_nil {s : Str} (h : ∀ c ∈ s, isPySpace c = true) :
    stripWs s = [] := by
  unfold stripWs
  have h1 : s.dropWhile isPySpace = [] := by
    rw [List.dropWhile_eq_nil_iff]
    intro c hc
    exact h c hc
  rw [h1]
  rfl

/-- A text consisting only of whitespace and sentence punctuation has no
sentences. -/
theorem textSentences_eq_nil {t : Str}
    (ht : ∀ c ∈ t, isPySpace c = true ∨ isSentPunct c = true) :
    textSentences t = [] := by
  unfold textSentences splitPunct
  rw [List.filter_eq_nil]
  intro p hp
  rw [List.mem_map] at hp
  obtain ⟨q, hq, rfl⟩ := hp
  have hws := splitPunctGo_all_ws t.length [] t (by intro c hc; cases hc) ht q hq
  rw [stripWs_eq_nil hws]
  decide

theorem foldl_weakStep_id {t : Str} :
    ∀ (ps : List Str) (acc : List GIssue × Nat),
      (∀ p ∈ ps, containsStr (lowerStr t) p = false) →
      ps.foldl (weakStep t) acc = acc := by
  intro ps
  induction ps with
  | nil => intro acc _; rfl
  | cons p tl ih =>
    intro acc hps
    rw [List.foldl_cons]
    have hstep : weakStep t acc p = acc := by
      unfold weakStep
      rw [hps p (List.mem_cons_self p tl)]
      rfl
    rw [hstep]
    exact ih acc fun q hq => hps q (List.mem_cons_of_mem p hq)

theorem passiveLead_none {w : Str} {rest : List Str} {hh : Char} {tt : Str}
    (hhw : w = hh :: tt) (hha : hh.isAlpha = true) {s : Str}
    (hs : ∀ c ∈ s, (Char.toLower c).isAlpha = false) :
    passiveLead (w :: rest) s = none := by
  subst hhw
  have hA : altAtHead (hh :: tt) s = false := by
    cases s with
    | nil => simp [altAtHead, lowerStr]
    | cons c cs =>
      simp only [altAtHead, decide_eq_false_iff_not]
      intro hEq
      rw [List.length_cons, List.take_succ_cons] at hEq
      unfold lowerStr at hEq
      rw [List.map_cons] at hEq
      have hhead : Char.toLower c = hh := (List.cons_eq_cons.mp hEq).1
      have := hs c (List.mem_cons_self c cs)
      rw [hhead, hha] at this
      exact Bool.true_eq_false.mp this
  unfold passiveLead
  rw [hA]
  rfl

theorem passiveScanGo_nil {lead : List Str} {w : Str} {rest : List Str}
    {hh : Char} {tt : Str} (hlead : lead = w :: rest) (hhw : w = hh :: tt)
    (hha : hh.isAlpha = true) :
    ∀ (fuel : Nat) (prev : Option Char) (l : Str),
      (∀ c ∈ l, (Char.toLower c).isAlpha = false) →
      passiveScanGo lead fuel prev l = [] := by
  intro fuel prev l
  induction fuel, prev, l using passiveScanGo.induct lead with
  | case1 prev l => intro _; rw [passiveScanGo]
  | case2 fuel prev => intro _; rw [passiveScanGo]
  | case3 fuel prev c cs hb n hmatch ih =>
    intro hl
    exfalso
    rw [hlead, passiveLead_none hhw hha hl] at hmatch
    cases hmatch
  | case4 fuel prev c cs hb hmatch ih =>
    intro hl
    rw [passiveScanGo, if_pos hb, hmatch]
    exact ih fun d hd => hl d (List.mem_cons_of_mem c hd)
  | case5 fuel prev c cs hb ih =>
    intro hl
    rw [passiveScanGo, if_neg hb]
    exact ih fun d hd => hl d (List.mem_cons_of_mem c hd)

theorem passiveScan_nil {lead : List Str} {w : Str} {rest : List Str}
    {hh : Char} {tt : Str} (hlead : lead = w :: rest) (hhw : w = hh :: tt)
    (hha : hh.isAlpha = true) (prev : Option Char) (l : Str)
    (hl : ∀ c ∈ l, (Char.toLower c).isAlpha = false) :
    passiveScan lead prev l = [] :=
  passiveScanGo_nil hlead hhw hha l.length prev l hl

/-- On a text with no sentences (only whitespace and sentence punctuation),
the style checker returns readability 50 and finds no issue, for any random
state. -/
theorem grammarCheck_degenerate {t : Str} (g : Nat)
    (ht : ∀ c ∈ t, isPySpace c = true ∨ isSentPunct c = true) :
    textSentences t = [] ∧ (grammarCheck t g).1.readability_score = 50 ∧
      (grammarCheck t g).1.issues = [] := by
  have hsent := textSentences_eq_nil ht
  have hAlphaT : ∀ c ∈ t, (Char.toLower c).isAlpha = false := fun c hc =>
    toLower_not_alpha (ht c hc)
  have hAlpha : ∀ c ∈ lowerStr t, c.isAlpha = false := by
    intro c hc
    rw [lowerStr, List.mem_map] at hc
    obtain ⟨d, hd, rfl⟩ := hc
    exact hAlphaT d hd
  have hNoSub : ∀ p : Str, (∃ c ∈ p, c.isAlpha = true) →
      containsStr (lowerStr t) p = false := by
    intro p hp
    obtain ⟨c, hcp, hca⟩ := hp
    refine containsStr_eq_false c hcp ?_
    intro hmem
    rw [hAlpha c hmem] at hca
    exact Bool.false_ne_true hca
  have hweak : checkWeakLanguage t g = ([], g) := by
    apply foldl_weakStep_id
    intro p hp
    exact hNoSub p
      ((show ∀ p ∈ weakPhrases, ∃ c ∈ p, c.isAlpha = true by decide) p hp)
  have hspell : checkSpelling t = [] := by
    unfold checkSpelling
    rw [List.filterMap_eq_nil]
    intro ec hec
    have hcond := hNoSub ec.1
      ((show ∀ ec ∈ commonErrorsTable, ∃ c ∈ ec.1, c.isAlpha = true by decide)
        ec hec)
    rw [hcond]
    rfl
  have hpassive : checkPassiveVoice t = [] := by
    unfold checkPassiveVoice
    have hscan : ∀ lead ∈ passivePatternLeads, passiveScan lead none t = [] := by
      intro lead hlead
      have hshape : lead ≠ [] ∧ lead.headI ≠ [] ∧
          (lead.headI.headI).isAlpha = true :=
        (show ∀ lead ∈ passivePatternLeads, lead ≠ [] ∧ lead.headI ≠ [] ∧
          (lead.headI.headI).isAlpha = true by decide) lead hlead
      obtain ⟨h1, h2, h3⟩ := hshape
      cases lead with
      | nil => exact absurd rfl h1
      | cons w rest =>
        cases hw : w with
        | nil =>
          rw [List.headI] at h2
          exact absurd hw h2
        | cons hh tt =>
          subst hw
          refine passiveScan_nil rfl rfl ?_ none t hAlphaT
          simpa using h3
    rw [List.map_congr_left fun lead hl => by rw [hscan lead hl]]
    decide
  have hpadAlpha : ∀ c ∈ lowerStr ([' '] ++ t ++ [' ']), c.isAlpha = false := by
    intro c hc
    rw [lowerStr, List.mem_map] at hc
    obtain ⟨d, hd, rfl⟩ := hc
    rw [List.mem_append, List.mem_append] at hd
    rcases hd with (hd | hd) | hd
    · rcases List.mem_singleton.mp hd with rfl
      decide
    · exact hAlphaT d hd
    · rcases List.mem_singleton.mp hd with rfl
      decide
  have hNoPad : ∀ p : Str, (∃ c ∈ p, c.isAlpha = true) →
      countSubstr (lowerStr ([' '] ++ t ++ [' '])) p = 0 := by
    intro p hp
    obtain ⟨c, hcp, hca⟩ := hp
    refine countSubstr_eq_zero c hcp ?_
    intro hmem
    rw [hpadAlpha c hmem] at hca
    exact Bool.false_ne_true hca
  have hfp : checkFirstPerson t = [] := by
    unfold checkFirstPerson
    rw [List.filterMap_eq_nil]
    intro pronoun hpr
    have hcount := hNoPad pronoun
      ((show ∀ p ∈ firstPersonPronouns, ∃ c ∈ p, c.isAlpha = true by decide)
        pronoun hpr)
    rw [hcount]
    rfl
  have hNoLower : ∀ p : Str, (∃ c ∈ p, c.isAlpha = true) →
      countSubstr (lowerStr t) p = 0 := by
    intro p hp
    obtain ⟨c, hcp, hca⟩ := hp
    refine countSubstr_eq_zero c hcp ?_
    intro hmem
    rw [hAlpha c hmem] at hca
    exact Bool.false_ne_true hca
  have hrep : checkRepetition t = [] := by
    unfold checkRepetition
    have hfm : (actionVerbs.filterMap fun verb =>
        if 3 < countSubstr (lowerStr t) verb then
          some (verb, countSubstr (lowerStr t) verb)
        else none) = [] := by
      rw [List.filterMap_eq_nil]
      intro verb hv
      have hcount := hNoLower verb
        ((show ∀ v ∈ actionVerbs, ∃ c ∈ v, c.isAlpha = true by decide) verb hv)
      rw [hcount]
      rfl
    rw [hfm]
    rfl
  refine ⟨hsent, ?_, ?_⟩
  · show calculateReadability t = 50
    unfold calculateReadability
    rw [hsent]
    rfl
  · show ((checkWeakLanguage t g).1 ++ checkSpelling t ++ checkPassiveVoice t ++
      checkFirstPerson t ++ checkRepetition t).take 20 = []
    rw [hweak, hspell, hpassive, hfp, hrep]
    rfl

/-- The total deduction applied by check_compatibility, one fixed penalty per
fired rule (the two word-count rules are mutually exclusive). -/
def atsDeductions (t : Str) : ℚ :=
  (if hasTableMarkers t then 15 else 0) +
  (if hasComplexFormatting t then 10 else 0) +
  (if !(checkSectionHeaders t).isEmpty then 10 else 0) +
  (if hasSpecialChars t then 5 else 0) +
  (if !hasContactInfo t then 15 else 0) +
  (if wordCount t < 200 then 10 else if 1500 < wordCount t then 5 else 0) +
  (if !hasMetrics t then 10 else 0)

/-- The issue list produced by check_compatibility, one issue per fired rule,
in rule order. -/
def atsIssuesList (t : Str) : List Issue :=
  (if hasTableMarkers t then [tableIssue] else []) ++
  (if hasComplexFormatting t then [formattingIssue] else []) ++
  (if !(checkSectionHeaders t).isEmpty then [headerIssue (checkSectionHeaders t)]
   else []) ++
  (if hasSpecialChars t then [specialCharsIssue] else []) ++
  (if !hasContactInfo t then [contactIssue] else []) ++
  (if wordCount t < 200 then [shortIssue]
   else if 1500 < wordCount t then [longIssue] else []) ++
  (if !hasMetrics t then [metricsIssue] else [])

theorem atsStage_eq (cond : Bool) (i : Issue) (pen : ℚ) (acc : List Issue × ℚ) :
    atsStage cond i pen acc =
      (acc.1 ++ if cond then [i] else [], acc.2 - if cond then pen else 0) := by
  cases cond <;> simp [atsStage]

theorem lengthStage_eq (c1 c2 : Prop) [Decidable c1] [Decidable c2]
    (i1 i2 : Issue) (p1 p2 : ℚ) (acc : List Issue × ℚ) :
    (if c1 then (acc.1 ++ [i1], acc.2 - p1)
     else if c2 then (acc.1 ++ [i2], acc.2 - p2) else acc) =
      (acc.1 ++ (if c1 then [i1] else if c2 then [i2] else []),
       acc.2 - (if c1 then p1 else if c2 then p2 else 0)) := by
  split_ifs <;> simp

/-- The accumulator of check_compatibility, in closed form: the fired rules'
issues in rule order, and 100 minus the total deduction. -/
theorem atsAccum_eq (t : Str) :
    atsAccum t = (atsIssuesList t, 100 - atsDeductions t) := by
  unfold atsAccum atsIssuesList atsDeductions
  simp only [atsStage_eq]
  by_cases h1 : wordCount t < 200
  · simp only [if_pos h1]
    rw [Prod.mk.injEq]
    constructor
    · simp [List.append_assoc]
    · ring
  · by_cases h2 : 1500 < wordCount t
    · simp only [if_neg h1, if_pos h2]
      rw [Prod.mk.injEq]
      constructor
      · simp [List.append_assoc]
      · ring
    · simp only [if_neg h1, if_neg h2]
      rw [Prod.mk.injEq]
      constructor
      · simp [List.append_assoc]
      · ring

theorem exists_int_ite (c : Prop) [Decidable c] (a b : ℤ) :
    ∃ n : ℤ, (if c then (a : ℚ) else (b : ℚ)) = (n : ℚ) := by
  split_ifs with h
  · exact ⟨a, rfl⟩
  · exact ⟨b, rfl⟩

theorem atsDeductions_int (t : Str) :
    ∃ n : ℤ, atsDeductions t = (n : ℚ) := by
  obtain ⟨n1, h1⟩ := exists_int_ite (hasTableMarkers t = true) 15 0
  obtain ⟨n2, h2⟩ := exists_int_ite (hasComplexFormatting t = true) 10 0
  obtain ⟨n3, h3⟩ := exists_int_ite ((!(checkSectionHeaders t).isEmpty) = true) 10 0
  obtain ⟨n4, h4⟩ := exists_int_ite (hasSpecialChars t = true) 5 0
  obtain ⟨n5, h5⟩ := exists_int_ite ((!hasContactInfo t) = true) 15 0
  have h6 : ∃ n : ℤ, (if wordCount t < 200 then (10 : ℚ)
      else if 1500 < wordCount t then 5 else 0) = (n : ℚ) := by
    split_ifs
    · exact ⟨10, by norm_num⟩
    · exact ⟨5, by norm_num⟩
    · exact ⟨0, by norm_num⟩
  obtain ⟨n6, h6⟩ := h6
  obtain ⟨n7, h7⟩ := exists_int_ite ((!hasMetrics t) = true) 10 0
  refine ⟨n1 + n2 + n3 + n4 + n5 + n6 + n7, ?_⟩
  push_cast at h1 h2 h3 h4 h5 h7
  unfold atsDeductions
  rw [h1, h2, h3, h4, h5, h6, h7]
  push_cast
  ring

theorem round1_clamp_int {d : ℚ} (hd : ∃ n : ℤ, d = (n : ℚ)) :
    round1 (max 0 (min 100 (100 - d))) = max 0 (min 100 (100 - d)) := by
  obtain ⟨n, rfl⟩ := hd
  have hcast : max 0 (min 100 (100 - (n : ℚ))) =
      ((max 0 (min 100 (100 - n)) : ℤ) : ℚ) := by
    push_cast
    rfl
  rw [hcast, round1_intCast]

/-- The compliance score, in closed form (the rounding is the identity since
every deduction is an integer). -/
theorem checkCompatibility_score (t : Str) :
    (checkCompatibility t).score = max 0 (min 100 (100 - atsDeductions t)) := by
  show round1 (max 0 (min 100 (atsAccum t).2)) = _
  rw [atsAccum_eq]
  exact round1_clamp_int (atsDeductions_int t)

theorem checkCompatibility_issues (t : Str) :
    (checkCompatibility t).issues = atsIssuesList t := by
  show (atsAccum t).1 = _
  rw [atsAccum_eq]

theorem checkCompatibility_total (t : Str) :
    (checkCompatibility t).total_issues = (atsIssuesList t).length := by
  show (atsAccum t).1.length = _
  rw [atsAccum_eq]

theorem checkCompatibility_rating (t : Str) :
    (checkCompatibility t).compatibility =
      compatibilityRating (max 0 (min 100 (100 - atsDeductions t))) := by
  show compatibilityRating (max 0 (min 100 (atsAccum t).2)) = _
  rw [atsAccum_eq]

theorem ite_nonneg_le (c : Prop) [Decidable c] {a : ℚ} (ha : 0 ≤ a) :
    0 ≤ (if c then a else 0) ∧ (if c then a else 0) ≤ a := by
  split_ifs
  · exact ⟨ha, le_refl a⟩
  · exact ⟨le_refl 0, ha⟩

theorem atsDeductions_bounds (t : Str) :
    0 ≤ atsDeductions t ∧ atsDeductions t ≤ 75 := by
  unfold atsDeductions
  obtain ⟨l1, u1⟩ := ite_nonneg_le (hasTableMarkers t = true)
    (by norm_num : (0:ℚ) ≤ 15)
  obtain ⟨l2, u2⟩ := ite_nonneg_le (hasComplexFormatting t = true)
    (by norm_num : (0:ℚ) ≤ 10)
  obtain ⟨l3, u3⟩ := ite_nonneg_le ((!(checkSectionHeaders t).isEmpty) = true)
    (by norm_num : (0:ℚ) ≤ 10)
  obtain ⟨l4, u4⟩ := ite_nonneg_le (hasSpecialChars t = true)
    (by norm_num : (0:ℚ) ≤ 5)
  obtain ⟨l5, u5⟩ := ite_nonneg_le ((!hasContactInfo t) = true)
    (by norm_num : (0:ℚ) ≤ 15)
  have h6 : 0 ≤ (if wordCount t < 200 then (10 : ℚ)
      else if 1500 < wordCount t then 5 else 0) ∧
      (if wordCount t < 200 then (10 : ℚ)
      else if 1500 < wordCount t then 5 else 0) ≤ 10 := by
    split_ifs <;> norm_num
  obtain ⟨l6, u6⟩ := h6
  obtain ⟨l7, u7⟩ := ite_nonneg_le ((!hasMetrics t) = true)
    (by norm_num : (0:ℚ) ≤ 10)
  constructor <;> linarith

/-- The compliance score never drops below 25: the worst case fires every
rule, and the two length rules exclude each other. -/
theorem checkCompatibility_score_ge (t : Str) :
    25 ≤ (checkCompatibility t).score := by
  rw [checkCompatibility_score]
  obtain ⟨hlo, hhi⟩ := atsDeductions_bounds t
  have hmin : min 100 (100 - atsDeductions t) = 100 - atsDeductions t :=
    min_eq_right (by linarith)
  rw [hmin]
  have hmax : max 0 (100 - atsDeductions t) = 100 - atsDeductions t :=
    max_eq_right (by linarith)
  rw [hmax]
  linarith

theorem ite_mono_imp (c d : Prop) [Decidable c] [Decidable d] {a : ℚ}
    (ha : 0 ≤ a) (h : c → d) :
    (if c then a else 0) ≤ (if d then a else 0) := by
  split_ifs with hc hd
  · exact le_refl a
  · exact absurd (h hc) hd
  · exact ha
  · exact le_refl 0

/-- If every rule firing on `t` also fires on `u`, the total deduction can
only grow. -/
theorem atsDeductions_mono {t u : Str}
    (h1 : hasTableMarkers t = true → hasTableMarkers u = true)
    (h2 : hasComplexFormatting t = true → hasComplexFormatting u = true)
    (h3 : (!(checkSectionHeaders t).isEmpty) = true →
      (!(checkSectionHeaders u).isEmpty) = true)
    (h4 : hasSpecialChars t = true → hasSpecialChars u = true)
    (h5 : (!hasContactInfo t) = true → (!hasContactInfo u) = true)
    (h6a : wordCount t < 200 → wordCount u < 200)
    (h6b : 1500 < wordCount t → 1500 < wordCount u)
    (h7 : (!hasMetrics t) = true → (!hasMetrics u) = true) :
    atsDeductions t ≤ atsDeductions u := by
  unfold atsDeductions
  have g1 := ite_mono_imp (hasTableMarkers t = true) (hasTableMarkers u = true)
    (by norm_num : (0:ℚ) ≤ 15) h1
  have g2 := ite_mono_imp (hasComplexFormatting t = true)
    (hasComplexFormatting u = true) (by norm_num : (0:ℚ) ≤ 10) h2
  have g3 := ite_mono_imp ((!(checkSectionHeaders t).isEmpty) = true)
    ((!(checkSectionHeaders u).isEmpty) = true) (by norm_num : (0:ℚ) ≤ 10) h3
  have g4 := ite_mono_imp (hasSpecialChars t = true) (hasSpecialChars u = true)
    (by norm_num : (0:ℚ) ≤ 5) h4
  have g5 := ite_mono_imp ((!hasContactInfo t) = true)
    ((!hasContactInfo u) = true) (by norm_num : (0:ℚ) ≤ 15) h5
  have g7 := ite_mono_imp ((!hasMetrics t) = true) ((!hasMetrics u) = true)
    (by norm_num : (0:ℚ) ≤ 10) h7
  have g6 : (if wordCount t < 200 then (10:ℚ)
      else if 1500 < wordCount t then 5 else 0) ≤
      (if wordCount u < 200 then (10:ℚ)
      else if 1500 < wordCount u then 5 else 0) := by
    by_cases ht1 : wordCount t < 200
    · have hu1 := h6a ht1
      rw [if_pos ht1, if_pos hu1]
    · rw [if_neg ht1]
      by_cases ht2 : 1500 < wordCount t
      · have hu2 := h6b ht2
        have hu1 : ¬ wordCount u < 200 := by omega
        rw [if_pos ht2, if_neg hu1, if_pos hu2]
      · rw [if_neg ht2]
        split_ifs <;> norm_num
  linarith

/-- The compliance score is antitone in the total deduction. -/
theorem checkCompatibility_score_antitone {t u : Str}
    (h : atsDeductions t ≤ atsDeductions u) :
    (checkCompatibility u).score ≤ (checkCompatibility t).score := by
  rw [checkCompatibility_score, checkCompatibility_score]
  have hsub : 100 - atsDeductions u ≤ 100 - atsDeductions t := by linarith
  exact max_le_max (le_refl 0) (min_le_min (le_refl 100) hsub)

theorem pairwise_of_const_priority {l : List PriorityFix} {m : Nat}
    (h : ∀ p ∈ l, p.priority = m) :
    l.Pairwise (fun a b => a.priority ≤ b.priority) := by
  induction l with
  | nil => exact List.Pairwise.nil
  | cons a tl ih =>
    refine List.Pairwise.cons ?_ (ih fun p hp => h p (List.mem_cons_of_mem a hp))
    intro b hb
    rw [h a (List.mem_cons_self a tl), h b (List.mem_cons_of_mem a hb)]

theorem countP_of_const {l : List PriorityFix} {q : PriorityFix → Bool}
    (h : ∀ p ∈ l, q p = true) : l.countP q = l.length := by
  induction l with
  | nil => rfl
  | cons a tl ih =>
    rw [List.countP_cons, ih fun p hp => h p (List.mem_cons_of_mem a hp),
      h a (List.mem_cons_self a tl)]
    simp [List.length_cons]

theorem countP_of_const_false {l : List PriorityFix} {q : PriorityFix → Bool}
    (h : ∀ p ∈ l, q p = false) : l.countP q = 0 := by
  induction l with
  | nil => rfl
  | cons a tl ih =>
    rw [List.countP_cons, ih fun p hp => h p (List.mem_cons_of_mem a hp),
      h a (List.mem_cons_self a tl)]
    simp

theorem pfHighAts_length (ats : List Issue) : (pfHighAts ats).length =
    min 3 (ats.filter fun i => decide (i.severity = "high".toList)).length := by
  simp [pfHighAts, List.length_take]

theorem pfKeywords_length (mk : List Str) : (pfKeywords mk).length =
    if 5 < mk.length then 1 else 0 := by
  unfold pfKeywords
  split_ifs <;> rfl

theorem pfHighGrammar_length (gr : List GIssue) : (pfHighGrammar gr).length =
    min 2 (gr.filter fun i => decide (i.severity = "high".toList)).length := by
  simp [pfHighGrammar, List.length_take]

theorem pfMedAts_length (ats : List Issue) : (pfMedAts ats).length =
    min 2 (ats.filter fun i => decide (i.severity = "medium".toList)).length := by
  simp [pfMedAts, List.length_take]

theorem pfHighAts_priority (ats : List Issue) :
    ∀ p ∈ pfHighAts ats, p.priority = 1 := by
  intro p hp
  rw [pfHighAts, List.mem_map] at hp
  obtain ⟨i, -, rfl⟩ := hp
  rfl

theorem pfKeywords_priority (mk : List Str) :
    ∀ p ∈ pfKeywords mk, p.priority = 1 := by
  intro p hp
  rw [pfKeywords] at hp
  split_ifs at hp
  · rcases List.mem_singleton.mp hp with rfl
    rfl
  · cases hp

theorem pfHighGrammar_priority (gr : List GIssue) :
    ∀ p ∈ pfHighGrammar gr, p.priority = 2 := by
  intro p hp
  rw [pfHighGrammar, List.mem_map] at hp
  obtain ⟨i, -, rfl⟩ := hp
  rfl

theorem pfMedAts_priority (ats : List Issue) :
    ∀ p ∈ pfMedAts ats, p.priority = 2 := by
  intro p hp
  rw [pfMedAts, List.mem_map] at hp
  obtain ⟨i, -, rfl⟩ := hp
  rfl

/-- The four blocks together never exceed 8 entries, so the final `[:10]`
truncation never triggers. -/
theorem prioritizeFixes_untruncated (ats : List Issue) (gr : List GIssue)
    (mk : List Str) :
    prioritizeFixes ats gr mk =
      pfHighAts ats ++ pfKeywords mk ++ pfHighGrammar gr ++ pfMedAts ats := by
  unfold prioritizeFixes
  apply List.take_of_length_le
  simp only [List.length_append, pfHighAts_length, pfKeywords_length,
    pfHighGrammar_length, pfMedAts_length]
  have h1 := Nat.min_le_left 3
    (ats.filter fun i => decide (i.severity = "high".toList)).length
  have h2 := Nat.min_le_left 2
    (gr.filter fun i => decide (i.severity = "high".toList)).length
  have h3 := Nat.min_le_left 2
    (ats.filter fun i => decide (i.severity = "medium".toList)).length
  split_ifs <;> omega

theorem prioritizeFixes_sorted (ats : List Issue) (gr : List GIssue)
    (mk : List Str) :
    (prioritizeFixes ats gr mk).Pairwise fun a b => a.priority ≤ b.priority := by
  rw [prioritizeFixes_untruncated, List.append_assoc, List.append_assoc,
    ← List.append_assoc (pfHighAts ats)]
  rw [List.pairwise_append]
  refine ⟨?_, ?_, ?_⟩
  · apply pairwise_of_const_priority (m := 1)
    intro p hp
    rcases List.mem_append.mp hp with hp | hp
    · exact pfHighAts_priority ats p hp
    · exact pfKeywords_priority mk p hp
  · rw [List.pairwise_append]
    refine ⟨pairwise_of_const_priority (pfHighGrammar_priority gr),
      pairwise_of_const_priority (pfMedAts_priority ats), ?_⟩
    intro a ha b hb
    rw [pfHighGrammar_priority gr a ha, pfMedAts_priority ats b hb]
  · intro a ha b hb
    have ha1 : a.priority = 1 := by
      rcases List.mem_append.mp ha with ha | ha
      · exact pfHighAts_priority ats a ha
      · exact pfKeywords_priority mk a ha
    have hb2 : b.priority = 2 := by
      rcases List.mem_append.mp hb with hb | hb
      · exact pfHighGrammar_priority gr b hb
      · exact pfMedAts_priority ats b hb
    omega

theorem prioritizeFixes_countP1 (ats : List Issue) (gr : List GIssue)
    (mk : List Str) :
    (prioritizeFixes ats gr mk).countP (fun p => p.priority == 1) =
      min 3 (ats.filter fun i => decide (i.severity = "high".toList)).length +
        (if 5 < mk.length then 1 else 0) := by
  rw [prioritizeFixes_untruncated]
  rw [List.countP_append, List.countP_append, List.countP_append]
  have c1 : (pfHighAts ats).countP (fun p => p.priority == 1) =
      (pfHighAts ats).length :=
    countP_of_const fun p hp => by
      rw [pfHighAts_priority ats p hp]
      rfl
  have c2 : (pfKeywords mk).countP (fun p => p.priority == 1) =
      (pfKeywords mk).length :=
    countP_of_const fun p hp => by
      rw [pfKeywords_priority mk p hp]
      rfl
  have c3 : (pfHighGrammar gr).countP (fun p => p.priority == 1) = 0 :=
    countP_of_const_false fun p hp => by
      rw [show p.priority = 2 from pfHighGrammar_priority gr p hp]
      rfl
  have c4 : (pfMedAts ats).countP (fun p => p.priority == 1) = 0 :=
    countP_of_const_false fun p hp => by
      rw [show p.priority = 2 from pfMedAts_priority ats p hp]
      rfl
  rw [c1, c2, c3, c4, pfHighAts_length, pfKeywords_length]
  omega

theorem prioritizeFixes_countP2 (ats : List Issue) (gr : List GIssue)
    (mk : List Str) :
    (prioritizeFixes ats gr mk).countP (fun p => p.priority == 2) =
      min 2 (gr.filter fun i => decide (i.severity = "high".toList)).length +
        min 2 (ats.filter fun i => decide (i.severity = "medium".toList)).length := by
  rw [prioritizeFixes_untruncated]
  rw [List.countP_append, List.countP_append, List.countP_append]
  have c1 : (pfHighAts ats).countP (fun p => p.priority == 2) = 0 :=
    countP_of_const_false fun p hp => by
      rw [show p.priority = 1 from pfHighAts_priority ats p hp]
      rfl
  have c2 : (pfKeywords mk).countP (fun p => p.priority == 2) = 0 :=
    countP_of_const_false fun p hp => by
      rw [show p.priority = 1 from pfKeywords_priority mk p hp]
      rfl
  have c3 : (pfHighGrammar gr).countP (fun p => p.priority == 2) =
      (pfHighGrammar gr).length :=
    countP_of_const fun p hp => by
      rw [pfHighGrammar_priority gr p hp]
      rfl
  have c4 : (pfMedAts ats).countP (fun p => p.priority == 2) =
      (pfMedAts ats).length :=
    countP_of_const fun p hp => by
      rw [pfMedAts_priority ats p hp]
      rfl
  rw [c1, c2, c3, c4, pfHighGrammar_length, pfMedAts_length]
  omega

theorem prioritizeFixes_length_le (ats : List Issue) (gr : List GIssue)
    (mk : List Str) : (prioritizeFixes ats gr mk).length ≤ 8 := by
  rw [prioritizeFixes_untruncated]
  simp only [List.length_append, pfHighAts_length, pfKeywords_length,
    pfHighGrammar_length, pfMedAts_length]
  have h1 := Nat.min_le_left 3
    (ats.filter fun i => decide (i.severity = "high".toList)).length
  have h2 := Nat.min_le_left 2
    (gr.filter fun i => decide (i.severity = "high".toList)).length
  have h3 := Nat.min_le_left 2
    (ats.filter fun i => decide (i.severity = "medium".toList)).length
  split_ifs <;> omega

/-- The projection of a style issue that drops the random suggestion text. -/
def gProj (i : GIssue) : Str × Str × Str := (i.gtype, i.severity, i.message)

theorem foldl_weakStep_proj (t : Str) :
    ∀ (ps : List Str) (a b : List GIssue × Nat),
      a.1.map gProj = b.1.map gProj →
      ((ps.foldl (weakStep t) a).1).map gProj =
        ((ps.foldl (weakStep t) b).1).map gProj := by
  intro ps
  induction ps with
  | nil => intro a b h; exact h
  | cons p tl ih =>
    intro a b h
    rw [List.foldl_cons, List.foldl_cons]
    apply ih
    unfold weakStep
    by_cases hc : containsStr (lowerStr t) p = true
    · rw [if_pos hc, if_pos hc]
      simp only [List.map_append, h, List.map_cons, List.map_nil]
      rfl
    · rw [if_neg hc, if_neg hc]
      exact h

/-- The weak-language issues differ across random states only in their
suggestion text. -/
theorem checkWeakLanguage_proj (t : Str) (g g' : Nat) :
    ((checkWeakLanguage t g).1).map gProj =
      ((checkWeakLanguage t g').1).map gProj :=
  foldl_weakStep_proj t weakPhrases ([], g) ([], g') rfl

theorem foldl_impactStep_keyword :
    ∀ (ks : List Str) (a b : List ImpactStatement × Nat),
      a.1.map (fun s => s.keyword) = b.1.map (fun s => s.keyword) →
      ((ks.foldl impactStep a).1).map (fun s => s.keyword) =
        ((ks.foldl impactStep b).1).map (fun s => s.keyword) := by
  intro ks
  induction ks with
  | nil => intro a b h; exact h
  | cons k tl ih =>
    intro a b h
    rw [List.foldl_cons, List.foldl_cons]
    apply ih
    unfold impactStep
    simp only [List.map_append, h, List.map_cons, List.map_nil]

/-- The impact statements' keywords do not depend on the random state. -/
theorem createImpactStatements_keywords (mk : List Str) (g g' : Nat) :
    ((createImpactStatements mk g).1).map (fun s => s.keyword) =
      ((createImpactStatements mk g').1).map (fun s => s.keyword) :=
  foldl_impactStep_keyword (mk.take 5) ([], g) ([], g') rfl

/-- Everything the style checker returns except the random suggestion text
inside weak-language issues is independent of the random state. -/
theorem grammarCheck_state_independent (t : Str) (g g' : Nat) :
    (grammarCheck t g).1.readability_score =
        (grammarCheck t g').1.readability_score ∧
      (grammarCheck t g).1.total_issues = (grammarCheck t g').1.total_issues ∧
      ((grammarCheck t g).1.issues).map gProj =
        ((grammarCheck t g').1.issues).map gProj ∧
      (grammarCheck t g).1.weak_phrase_count =
        (grammarCheck t g').1.weak_phrase_count ∧
      (grammarCheck t g).1.action_verb_count =
        (grammarCheck t g').1.action_verb_count ∧
      (grammarCheck t g).1.suggestions = (grammarCheck t g').1.suggestions := by
  have hproj : ((checkWeakLanguage t g).1 ++ checkSpelling t ++
      checkPassiveVoice t ++ checkFirstPerson t ++ checkRepetition t).map gProj =
      ((checkWeakLanguage t g').1 ++ checkSpelling t ++ checkPassiveVoice t ++
        checkFirstPerson t ++ checkRepetition t).map gProj := by
    simp only [List.map_append, checkWeakLanguage_proj t g g']
  have hlenL : ((checkWeakLanguage t g).1 ++ checkSpelling t ++
      checkPassiveVoice t ++ checkFirstPerson t ++ checkRepetition t).length =
      ((checkWeakLanguage t g').1 ++ checkSpelling t ++ checkPassiveVoice t ++
        checkFirstPerson t ++ checkRepetition t).length := by
    have h := congrArg List.length hproj
    simpa using h
  have hwlen : (checkWeakLanguage t g).1.length =
      (checkWeakLanguage t g').1.length := by
    have h := congrArg List.length (checkWeakLanguage_proj t g g')
    simpa using h
  have hmapfst : ∀ M : List GIssue,
      M.map (fun i => i.gtype) = (M.map gProj).map fun x => x.1 := by
    intro M
    rw [List.map_map]
    rfl
  have hty : ((checkWeakLanguage t g).1 ++ checkSpelling t ++
      checkPassiveVoice t ++ checkFirstPerson t ++ checkRepetition t).map
        (fun i => i.gtype) =
      ((checkWeakLanguage t g').1 ++ checkSpelling t ++ checkPassiveVoice t ++
        checkFirstPerson t ++ checkRepetition t).map (fun i => i.gtype) := by
    rw [hmapfst, hmapfst, hproj]
  refine ⟨rfl, hlenL, ?_, hwlen, rfl, ?_⟩
  · show (((checkWeakLanguage t g).1 ++ checkSpelling t ++ checkPassiveVoice t ++
      checkFirstPerson t ++ checkRepetition t).take 20).map gProj =
      (((checkWeakLanguage t g').1 ++ checkSpelling t ++ checkPassiveVoice t ++
      checkFirstPerson t ++ checkRepetition t).take 20).map gProj
    simp only [List.map_take]
    rw [hproj]
  · show getGeneralSuggestions _ = getGeneralSuggestions _
    unfold getGeneralSuggestions
    rw [hty, hlenL]

/-! ## The claims -/

/-- C3: for every resume text, analyzeCompliance starts from 100, subtracts
the fixed penalty of each firing rule (15 table, 10 box-drawing glyphs, 10
non-standard header, 5 decorative bullets, 15 missing contact, 10 short, 5
long, 10 few quantified achievements), each firing rule producing exactly one
issue; the score is clamped to [0,100] and the compatibility rating is the
step function (≥80 Excellent, ≥60 Good, ≥40 Fair, else Poor) of the final
score. -/
theorem claim_C3 (t : Str) :
    (checkCompatibility t).score = max 0 (min 100 (100 - atsDeductions t)) ∧
      (checkCompatibility t).issues = atsIssuesList t ∧
      (checkCompatibility t).total_issues = (checkCompatibility t).issues.length ∧
      (checkCompatibility t).compatibility =
        (if 80 ≤ (checkCompatibility t).score then "Excellent".toList
         else if 60 ≤ (checkCompatibility t).score then "Good".toList
         else if 40 ≤ (checkCompatibility t).score then "Fair".toList
         else "Poor".toList) := by
  refine ⟨checkCompatibility_score t, checkCompatibility_issues t, rfl, ?_⟩
  rw [checkCompatibility_rating t, checkCompatibility_score t]
  rfl

/-- C10: for every resume text, the compliance score is at least 25, because
the total deduction never exceeds 75 (the two length penalties are mutually
exclusive and every other rule fires at most once), so the clamp's lower
bound is never reached. -/
theorem claim_C10 (t : Str) :
    25 ≤ (checkCompatibility t).score ∧ atsDeductions t ≤ 75 :=
  ⟨checkCompatibility_score_ge t, (atsDeductions_bounds t).2⟩

/-- A short clean-ish base text for the C4 analysis: it misses contact info,
metrics and the 200-word minimum, and fires no other rule. -/
def c4Base : Str :=
  "hello world the quick brown fox jumps over lazy dog again".toList

/-- A table-like block (four double-tab lines) that also carries an email
address and three percentages, curing the contact and metrics penalties. -/
def c4Block : Str :=
  "\na@b.cd\t\tx\n1% 2% 3%\t\tz\nq\t\tw\ne\t\tr".toList

/-- A table-like block that cures nothing: it only adds the table penalty. -/
def c4BlockClean : Str :=
  "\nq\t\tw\ne\t\tr\nt\t\ty\nu\t\ti".toList

/-- C4 counterexample: appending a table-like block (which fires the table
rule) to this resume RAISES the compliance score from 65 to 75, because the
block also cures the missing-contact and missing-metrics penalties; so the
score is not monotonically non-increasing under adding a table-like block. -/
theorem claim_C4_counterexample :
    hasTableMarkers (c4Base ++ c4Block) = true ∧
      hasTableMarkers c4Base = false ∧
      (checkCompatibility c4Base).score <
        (checkCompatibility (c4Base ++ c4Block)).score := by
  refine ⟨by decide, by decide, ?_⟩
  rw [checkCompatibility_score, checkCompatibility_score]
  have hB : atsDeductions c4Base = 35 := by
    unfold atsDeductions
    norm_num [show hasTableMarkers c4Base = false from by decide,
      show hasComplexFormatting c4Base = false from by decide,
      show (checkSectionHeaders c4Base).isEmpty = true from by decide,
      show hasSpecialChars c4Base = false from by decide,
      show hasContactInfo c4Base = false from by decide,
      show hasMetrics c4Base = false from by decide,
      show wordCount c4Base = 11 from by decide]
  have hT : atsDeductions (c4Base ++ c4Block) = 25 := by
    unfold atsDeductions
    norm_num [show hasTableMarkers (c4Base ++ c4Block) = true from by decide,
      show hasComplexFormatting (c4Base ++ c4Block) = false from by decide,
      show (checkSectionHeaders (c4Base ++ c4Block)).isEmpty = true from by decide,
      show hasSpecialChars (c4Base ++ c4Block) = false from by decide,
      show hasContactInfo (c4Base ++ c4Block) = true from by decide,
      show hasMetrics (c4Base ++ c4Block) = true from by decide,
      show wordCount (c4Base ++ c4Block) = 21 from by decide]
  rw [hB, hT]
  norm_num

/-- C4 (amended): the compliance score is monotonically non-increasing as
more penalty rules fire: if every rule firing on `t` also fires on `u`
(in particular, if a table-like block is added without curing any other
rule), then the score of `u` is at most the score of `t`. -/
theorem claim_C4 {t u : Str}
    (h1 : hasTableMarkers t = true → hasTableMarkers u = true)
    (h2 : hasComplexFormatting t = true → hasComplexFormatting u = true)
    (h3 : (!(checkSectionHeaders t).isEmpty) = true →
      (!(checkSectionHeaders u).isEmpty) = true)
    (h4 : hasSpecialChars t = true → hasSpecialChars u = true)
    (h5 : (!hasContactInfo t) = true → (!hasContactInfo u) = true)
    (h6a : wordCount t < 200 → wordCount u < 200)
    (h6b : 1500 < wordCount t → 1500 < wordCount u)
    (h7 : (!hasMetrics t) = true → (!hasMetrics u) = true) :
    (checkCompatibility u).score ≤ (checkCompatibility t).score :=
  checkCompatibility_score_antitone
    (atsDeductions_mono h1 h2 h3 h4 h5 h6a h6b h7)

/-- C4 witness: appending a table-like block that cures nothing yields a
concrete instance of the amended monotonicity (score drops from 65 to 50). -/
theorem claim_C4_witness :
    (checkCompatibility (c4Base ++ c4BlockClean)).score ≤
      (checkCompatibility c4Base).score :=
  claim_C4 (by decide) (by decide) (by decide) (by decide) (by decide)
    (by decide) (by decide) (by decide)

theorem round1_eq_self_of_int (q : ℚ) (n : ℤ) (h : q = (n : ℚ)) :
    round1 q = q := by
  rw [h, round1_intCast]

/-- C7: the analyzeStyle readability score is exactly the step function of
the average words per sentence (15-20 gives 100, 10-14 gives 90, 21-25 gives
85, 26-30 gives 70, otherwise 60; 0 sentences gives 50), and a text averaging
17 words per sentence scores exactly 100. -/
theorem claim_C7 (t : Str) :
    (calculateReadability t =
      if textSentences t = [] then (50 : ℚ)
      else
        if 15 ≤ ((splitWs t).length : ℚ) / ((textSentences t).length : ℚ) ∧
            ((splitWs t).length : ℚ) / ((textSentences t).length : ℚ) ≤ 20 then 100
        else if 10 ≤ ((splitWs t).length : ℚ) / ((textSentences t).length : ℚ) ∧
            ((splitWs t).length : ℚ) / ((textSentences t).length : ℚ) < 15 then 90
        else if 20 < ((splitWs t).length : ℚ) / ((textSentences t).length : ℚ) ∧
            ((splitWs t).length : ℚ) / ((textSentences t).length : ℚ) ≤ 25 then 85
        else if 25 < ((splitWs t).length : ℚ) / ((textSentences t).length : ℚ) ∧
            ((splitWs t).length : ℚ) / ((textSentences t).length : ℚ) ≤ 30 then 70
        else 60) ∧
    (textSentences t ≠ [] →
      ((splitWs t).length : ℚ) = 17 * ((textSentences t).length : ℚ) →
      calculateReadability t = 100) := by
  constructor
  · simp only [calculateReadability]
    by_cases hs : textSentences t = []
    · rw [if_pos (List.isEmpty_iff.mpr hs), if_pos hs]
    · rw [if_neg (fun hcon => hs (List.isEmpty_iff.mp hcon)), if_neg hs]
      split_ifs
      · exact round1_eq_self_of_int _ 100 (by norm_num)
      · exact round1_eq_self_of_int _ 90 (by norm_num)
      · exact round1_eq_self_of_int _ 85 (by norm_num)
      · exact round1_eq_self_of_int _ 70 (by norm_num)
      · exact round1_eq_self_of_int _ 60 (by norm_num)
  · intro hne h17
    have hn : (0 : ℚ) < ((textSentences t).length : ℚ) := by
      have hl : 0 < (textSentences t).length := List.length_pos.mpr hne
      exact_mod_cast hl
    have havg : ((splitWs t).length : ℚ) / ((textSentences t).length : ℚ) = 17 := by
      rw [h17]
      field_simp
    simp only [calculateReadability]
    rw [if_neg (fun hcon => hne (List.isEmpty_iff.mp hcon)), havg,
      if_pos (by norm_num : (15 : ℚ) ≤ 17 ∧ (17 : ℚ) ≤ 20)]
    exact round1_eq_self_of_int _ 100 (by norm_num)

/-- C7 witness: a one-sentence text of 17 words has readability exactly
100. -/
theorem claim_C7_witness :
    calculateReadability
      ("alpha beta gamma delta epsilon zeta eta theta iota kappa lambda mu nu xi omicron pi rho.".toList) =
      100 :=
  (claim_C7 _).2 (by decide)
    (by rw [show (splitWs ("alpha beta gamma delta epsilon zeta eta theta iota kappa lambda mu nu xi omicron pi rho.".toList)).length = 17 from by decide,
          show (textSentences ("alpha beta gamma delta epsilon zeta eta theta iota kappa lambda mu nu xi omicron pi rho.".toList)).length = 1 from by decide]
        norm_num)

/-- C2: for every resume and job description the match score lies in
[0, 100], no keyword reported as found is also reported as missing, and a
job description yielding no keywords gives score 0 with empty found and
missing lists. -/
theorem claim_C2 (r j : Str) :
    (0 ≤ (matchResumeJd r j).score ∧ (matchResumeJd r j).score ≤ 100) ∧
    (∀ kw ∈ (matchResumeJd r j).found_keywords,
      kw ∉ (matchResumeJd r j).missing_keywords) ∧
    (extractKeywords j = [] →
      (matchResumeJd r j).score = 0 ∧
      (matchResumeJd r j).found_keywords = [] ∧
      (matchResumeJd r j).missing_keywords = []) :=
  ⟨matchResumeJd_score_bounds r j,
   fun kw hkw => matchResumeJd_disjoint r j kw hkw,
   fun h => matchResumeJd_empty_jd r h⟩

/-- C2 witness: the invariants checked at concrete resume and job
description texts. -/
theorem claim_C2_witness :
    ("zebra".toList ∉
      (matchResumeJd ("Zebra Zebra".toList) ("Zebra Zebra".toList)).missing_keywords) ∧
    ((matchResumeJd ("Zebra Zebra".toList) ("".toList)).score = 0 ∧
      (matchResumeJd ("Zebra Zebra".toList) ("".toList)).found_keywords = [] ∧
      (matchResumeJd ("Zebra Zebra".toList) ("".toList)).missing_keywords = []) :=
  ⟨(claim_C2 ("Zebra Zebra".toList) ("Zebra Zebra".toList)).2.1 ("zebra".toList) (by decide),
   (claim_C2 ("Zebra Zebra".toList) ("".toList)).2.2 (by decide)⟩

/-- C5 counterexample: with an empty resume and job description
"Zebra Zebra Zebra Apple Apple", the missing keywords come back as
["apple", "zebra"] — plain lexicographic order — even though "zebra" has the
strictly larger TF-IDF weight, so the list is not ordered by descending
weight. -/
theorem claim_C5_counterexample :
    (matchResumeJd ("".toList)
        ("Zebra Zebra Zebra Apple Apple".toList)).missing_keywords =
      ["apple".toList, "zebra".toList] ∧
    tfidfVal ("Zebra Zebra Zebra Apple Apple".toList) ("apple".toList) <
      tfidfVal ("Zebra Zebra Zebra Apple Apple".toList) ("zebra".toList) := by
  constructor
  · decide
  · have ha : countSubstr (lowerStr ("Zebra Zebra Zebra Apple Apple".toList))
        (lowerStr ("apple".toList)) = 2 := by decide
    have hz : countSubstr (lowerStr ("Zebra Zebra Zebra Apple Apple".toList))
        (lowerStr ("zebra".toList)) = 3 := by decide
    have hw : (splitWs (lowerStr ("Zebra Zebra Zebra Apple Apple".toList))).length = 5 := by
      decide
    simp only [tfidfVal, idfOf]
    rw [ha, hz, hw]
    norm_num

/-- C5 (amended): the missing-keyword list is sorted in ascending
lexicographic order and capped at 15 entries (not ordered by descending
TF-IDF weight), every missing keyword is a job-description keyword absent
from the found list, and symmetrically the found list is sorted ascending,
capped at 20, and drawn from the job-description keywords. -/
theorem claim_C5 (r j : Str) :
    ((matchResumeJd r j).missing_keywords).Pairwise (fun a b => strLe a b = true) ∧
    (matchResumeJd r j).missing_keywords.length ≤ 15 ∧
    (∀ kw ∈ (matchResumeJd r j).missing_keywords,
      kw ∈ extractKeywords j ∧ kw ∉ (matchResumeJd r j).found_keywords) ∧
    ((matchResumeJd r j).found_keywords).Pairwise (fun a b => strLe a b = true) ∧
    (matchResumeJd r j).found_keywords.length ≤ 20 ∧
    (∀ kw ∈ (matchResumeJd r j).found_keywords, kw ∈ extractKeywords j) := by
  refine ⟨?_, ?_, ?_, ?_, ?_, ?_⟩
  · rw [matchResumeJd_missing_eq]
    exact List.Pairwise.sublist (List.take_sublist _ _) (sortStrs_sorted _)
  · rw [matchResumeJd_missing_eq]
    exact List.length_take_le _ _
  · intro kw hkw
    refine ⟨?_, ?_⟩
    · rw [matchResumeJd_missing_eq] at hkw
      have h1 := mem_sortStrs.mp (List.mem_of_mem_take hkw)
      exact (List.mem_filter.mp h1).1
    · intro hf
      exact matchResumeJd_disjoint r j kw hf hkw
  · rw [matchResumeJd_found_eq]
    exact List.Pairwise.sublist (List.take_sublist _ _) (sortStrs_sorted _)
  · rw [matchResumeJd_found_eq]
    exact List.length_take_le _ _
  · intro kw hkw
    rw [matchResumeJd_found_eq] at hkw
    have h1 := mem_sortStrs.mp (List.mem_of_mem_take hkw)
    exact (List.mem_filter.mp h1).1

/-- C5 witness: at a concrete input, "apple" is reported missing and is
certified to be a job-description keyword not present in the found list. -/
theorem claim_C5_witness :
    "apple".toList ∈ extractKeywords ("Zebra Zebra Zebra Apple Apple".toList) ∧
      "apple".toList ∉
        (matchResumeJd ("".toList)
          ("Zebra Zebra Zebra Apple Apple".toList)).found_keywords :=
  (claim_C5 ("".toList) ("Zebra Zebra Zebra Apple Apple".toList)).2.2.1
    ("apple".toList) (by decide)

/-- C1 (amended): the reported score is the 70/30 blend of keyword coverage
and TF-IDF weighted coverage, clamped to [0, 100] and then rounded to one
decimal place with Python banker's rounding (the original claim omitted the
rounding step). -/
theorem claim_C1 (r j : Str) :
    (matchResumeJd r j).score =
      round1 (max 0 (min 100
        (0.7 * (if extractKeywords j = [] then 0
            else 100 * ((findMatches (extractKeywords r) (extractKeywords j)
                (lowerStr r)).length : ℚ) / ((extractKeywords j).length : ℚ)) +
         0.3 * (if extractKeywords j = [] ∨
              ((extractKeywords j).map fun kw => tfidfVal j kw).sum = 0 then 0
            else 100 * (((findMatches (extractKeywords r) (extractKeywords j)
                (lowerStr r)).map fun kw => tfidfVal j kw).sum) /
              ((extractKeywords j).map fun kw => tfidfVal j kw).sum)))) := by
  rw [matchResumeJd_score_eq]
  congr 1
  by_cases hK : extractKeywords j = []
  · rw [hK]
    rw [if_pos (show ([] : List Str) = [] from rfl),
      if_pos (Or.inl (show ([] : List Str) = [] from rfl))]
    have hc : calculateMatchScore
        (findMatches (extractKeywords r) [] (lowerStr r)) []
        (fun kw => tfidfVal j kw) = 0 := rfl
    rw [hc]
    norm_num
  · have hsub : ∀ x ∈ findMatches (extractKeywords r) (extractKeywords j)
        (lowerStr r), x ∈ extractKeywords j := by
      intro x hx
      unfold findMatches at hx
      exact List.mem_of_mem_filter hx
    have hmw : ((findMatches (extractKeywords r) (extractKeywords j)
          (lowerStr r)).map
        fun kw => if (extractKeywords j).contains kw then tfidfVal j kw else 1).sum =
        ((findMatches (extractKeywords r) (extractKeywords j) (lowerStr r)).map
          fun kw => tfidfVal j kw).sum := by
      congr 1
      apply List.map_congr_left
      intro kw hkw
      rw [if_pos (contains_of_mem (hsub kw hkw))]
    have htwnn : 0 ≤ ((extractKeywords j).map fun kw => tfidfVal j kw).sum := by
      apply List.sum_nonneg
      intro q hq
      rw [List.mem_map] at hq
      obtain ⟨x, hx, rfl⟩ := hq
      exact tfidfVal_nonneg j x
    have hmwnn : 0 ≤ ((findMatches (extractKeywords r) (extractKeywords j)
        (lowerStr r)).map fun kw => tfidfVal j kw).sum := by
      apply List.sum_nonneg
      intro q hq
      rw [List.mem_map] at hq
      obtain ⟨x, hx, rfl⟩ := hq
      exact tfidfVal_nonneg j x
    have hbnn : (0 : ℚ) ≤ 100 * ((findMatches (extractKeywords r)
        (extractKeywords j) (lowerStr r)).length : ℚ) /
        ((extractKeywords j).length : ℚ) := by positivity
    simp only [calculateMatchScore]
    rw [if_neg (fun hcon => hK (List.isEmpty_iff.mp hcon)), if_neg hK, hmw]
    by_cases htw : ((extractKeywords j).map fun kw => tfidfVal j kw).sum = 0
    · rw [if_neg (show ¬(0 < ((extractKeywords j).map fun kw =>
          tfidfVal j kw).sum) from by rw [htw]; exact lt_irrefl 0)]
      rw [if_pos (Or.inr htw)]
      have hXnn : (0 : ℚ) ≤ min 100
          (0.7 * (100 * ((findMatches (extractKeywords r) (extractKeywords j)
              (lowerStr r)).length : ℚ) / ((extractKeywords j).length : ℚ)) +
            0.3 * 0) := by
        refine le_min (by norm_num) ?_
        linarith
      rw [max_eq_right hXnn]
      congr 1
      ring
    · have htwpos : 0 < ((extractKeywords j).map fun kw => tfidfVal j kw).sum :=
        lt_of_le_of_ne htwnn (Ne.symm htw)
      rw [if_pos htwpos,
        if_neg (show ¬(extractKeywords j = [] ∨
          ((extractKeywords j).map fun kw => tfidfVal j kw).sum = 0) from by
            push_neg
            exact ⟨hK, htw⟩)]
      have hXnn : (0 : ℚ) ≤ min 100
          (0.7 * (100 * ((findMatches (extractKeywords r) (extractKeywords j)
              (lowerStr r)).length : ℚ) / ((extractKeywords j).length : ℚ)) +
            0.3 * (100 * (((findMatches (extractKeywords r) (extractKeywords j)
              (lowerStr r)).map fun kw => tfidfVal j kw).sum) /
              ((extractKeywords j).map fun kw => tfidfVal j kw).sum)) := by
        refine le_min (by norm_num) ?_
        have hwnn : (0 : ℚ) ≤ 100 * (((findMatches (extractKeywords r)
            (extractKeywords j) (lowerStr r)).map fun kw => tfidfVal j kw).sum) /
            ((extractKeywords j).map fun kw => tfidfVal j kw).sum :=
          div_nonneg (mul_nonneg (by norm_num) hmwnn) htwpos.le
        linarith
      rw [max_eq_right hXnn]
      congr 1
      ring

theorem round1_eval (q r : ℚ) (n : ℤ) (hq : q * 10 = r) (hfl : ⌊r⌋ = n)
    (hlt : r - (n : ℚ) < 1 / 2) : round1 q = (n : ℚ) / 10 := by
  unfold round1 pyRoundInt
  rw [hq, hfl, if_pos hlt]

def c1R : Str := "Zebra zzz".toList

def c1J : Str := "Zebra Zebra Zebra Apple Apple Apple Cider Cider Cider".toList

/-- C1 counterexample: for the resume "Zebra zzz" against the job
description "Zebra Zebra Zebra Apple Apple Apple Cider Cider Cider" the
unrounded blend is 100/3, but the engine reports round(100/3, 1) = 33.3, so
the score is not literally the clamped blend as the claim states. -/
theorem claim_C1_counterexample :
    (matchResumeJd c1R c1J).score ≠
      max 0 (min 100
        (0.7 * (if extractKeywords c1J = [] then 0
            else 100 * ((findMatches (extractKeywords c1R) (extractKeywords c1J)
                (lowerStr c1R)).length : ℚ) / ((extractKeywords c1J).length : ℚ)) +
         0.3 * (if extractKeywords c1J = [] ∨
              ((extractKeywords c1J).map fun kw => tfidfVal c1J kw).sum = 0 then 0
            else 100 * (((findMatches (extractKeywords c1R) (extractKeywords c1J)
                (lowerStr c1R)).map fun kw => tfidfVal c1J kw).sum) /
              ((extractKeywords c1J).map fun kw => tfidfVal c1J kw).sum))) := by
  have hM : findMatches (extractKeywords c1R) (extractKeywords c1J)
      (lowerStr c1R) = ["zebra".toList] := by decide
  have hK : extractKeywords c1J =
      ["zebra".toList, "apple".toList, "cider".toList] := by decide
  have hz : tfidfVal c1J ("zebra".toList) = 2 / 3 := by
    have hc : countSubstr (lowerStr c1J) (lowerStr ("zebra".toList)) = 3 := by decide
    have hw : (splitWs (lowerStr c1J)).length = 9 := by decide
    simp only [tfidfVal, idfOf]
    rw [hc, hw]
    norm_num
  have ha : tfidfVal c1J ("apple".toList) = 2 / 3 := by
    have hc : countSubstr (lowerStr c1J) (lowerStr ("apple".toList)) = 3 := by decide
    have hw : (splitWs (lowerStr c1J)).length = 9 := by decide
    simp only [tfidfVal, idfOf]
    rw [hc, hw]
    norm_num
  have hcid : tfidfVal c1J ("cider".toList) = 2 / 3 := by
    have hc : countSubstr (lowerStr c1J) (lowerStr ("cider".toList)) = 3 := by decide
    have hw : (splitWs (lowerStr c1J)).length = 9 := by decide
    simp only [tfidfVal, idfOf]
    rw [hc, hw]
    norm_num
  have htw : ((["zebra".toList, "apple".toList, "cider".toList] : List Str).map
      fun kw => tfidfVal c1J kw).sum = 2 := by
    simp only [List.map_cons, List.map_nil, List.sum_cons, List.sum_nil]
    rw [hz, ha, hcid]
    norm_num
  have hms : ((["zebra".toList] : List Str).map fun kw => tfidfVal c1J kw).sum =
      2 / 3 := by
    simp only [List.map_cons, List.map_nil, List.sum_cons, List.sum_nil]
    rw [hz]
    norm_num
  have hcalc : calculateMatchScore
      (findMatches (extractKeywords c1R) (extractKeywords c1J) (lowerStr c1R))
      (extractKeywords c1J) (fun kw => tfidfVal c1J kw) = 100 / 3 := by
    rw [hM, hK]
    simp only [calculateMatchScore]
    rw [if_neg (by decide :
      ¬((["zebra".toList, "apple".toList, "cider".toList] : List Str).isEmpty = true))]
    simp only [List.map_cons, List.map_nil, List.sum_cons, List.sum_nil,
      List.length_cons, List.length_nil]
    rw [if_pos (by decide :
      (["zebra".toList, "apple".toList, "cider".toList] : List Str).contains
        ("zebra".toList) = true)]
    rw [hz, ha, hcid]
    norm_num
  have hsc : round1 ((100 : ℚ) / 3) = ((333 : ℤ) : ℚ) / 10 :=
    round1_eval (100 / 3) (1000 / 3) 333 (by norm_num)
      (by rw [Int.floor_eq_iff]; norm_num) (by norm_num)
  have hscore : (matchResumeJd c1R c1J).score = 333 / 10 := by
    rw [matchResumeJd_score_eq, hcalc, hsc]
    norm_num
  have hRHS : max 0 (min 100
      (0.7 * (if extractKeywords c1J = [] then (0 : ℚ)
          else 100 * ((findMatches (extractKeywords c1R) (extractKeywords c1J)
              (lowerStr c1R)).length : ℚ) / ((extractKeywords c1J).length : ℚ)) +
       0.3 * (if extractKeywords c1J = [] ∨
            ((extractKeywords c1J).map fun kw => tfidfVal c1J kw).sum = 0 then 0
          else 100 * (((findMatches (extractKeywords c1R) (extractKeywords c1J)
              (lowerStr c1R)).map fun kw => tfidfVal c1J kw).sum) /
            ((extractKeywords c1J).map fun kw => tfidfVal c1J kw).sum))) =
      100 / 3 := by
    rw [hM, hK, htw, hms]
    rw [if_neg (by decide :
        ¬(["zebra".toList, "apple".toList, "cider".toList] = ([] : List Str)))]
    rw [if_neg (show ¬((["zebra".toList, "apple".toList, "cider".toList] :
        List Str) = [] ∨ (2 : ℚ) = 0) from by
      push_neg
      exact ⟨by decide, by norm_num⟩)]
    simp only [List.length_cons, List.length_nil]
    norm_num
  rw [hscore, hRHS]
  norm_num

def c6Issue (m : Str) : Issue :=
  { itype := "x".toList, severity := "high".toList, message := m,
    fix := "f".toList }

/-- C6 counterexample: with four high-severity compliance issues, the fourth
one yields no suggestion at all (the source keeps only the first 3 high
compliance issues), refuting "every compliance issue of severity high yields
a priority-1 suggestion". -/
theorem claim_C6_counterexample :
    ((prioritizeFixes
        [c6Issue ("m1".toList), c6Issue ("m2".toList), c6Issue ("m3".toList),
          c6Issue ("m4".toList)] [] []).all
      fun p => !(p.issue == "m4".toList)) = true ∧
    ([c6Issue ("m1".toList), c6Issue ("m2".toList), c6Issue ("m3".toList),
        c6Issue ("m4".toList)].countP
      fun i => i.severity == "high".toList) = 4 :=
  ⟨by decide, by decide⟩

/-- C6 (amended): the suggestions are ordered by non-decreasing priority with
the category blocks in the order high-compliance, keywords, high-style,
medium-compliance; the number of priority-1 entries is min 3 of the
high-severity compliance issues plus one when more than 5 keywords are
missing, the number of priority-2 entries is min 2 of the high-severity
style issues plus min 2 of the medium-severity compliance issues (so each
category is capped, not exhaustive), and the total never exceeds 8 — the
top-10 truncation is vacuous. -/
theorem claim_C6 (ats : List Issue) (gr : List GIssue) (mk : List Str) :
    ((prioritizeFixes ats gr mk).Pairwise fun a b => a.priority ≤ b.priority) ∧
    (prioritizeFixes ats gr mk).countP (fun p => p.priority == 1) =
      min 3 (ats.filter fun i => decide (i.severity = "high".toList)).length +
        (if 5 < mk.length then 1 else 0) ∧
    (prioritizeFixes ats gr mk).countP (fun p => p.priority == 2) =
      min 2 (gr.filter fun i => decide (i.severity = "high".toList)).length +
        min 2 (ats.filter fun i => decide (i.severity = "medium".toList)).length ∧
    (prioritizeFixes ats gr mk).length ≤ 8 :=
  ⟨prioritizeFixes_sorted ats gr mk, prioritizeFixes_countP1 ats gr mk,
   prioritizeFixes_countP2 ats gr mk, prioritizeFixes_length_le ats gr mk⟩

/-- C8: degenerate inputs give well-formed neutral results — whitespace-only
text yields no keywords, a job description with no extractable keywords gives
match score 0 with empty found and missing lists, text whose characters are
all whitespace or sentence punctuation has zero sentences, readability 50 and
no style issues, and the compliance report of the empty text flags the resume
as too short. -/
theorem claim_C8 :
    (∀ t : Str, (∀ c ∈ t, isPySpace c = true) → extractKeywords t = []) ∧
    (∀ r j : Str, extractKeywords j = [] →
      (matchResumeJd r j).score = 0 ∧ (matchResumeJd r j).found_keywords = [] ∧
        (matchResumeJd r j).missing_keywords = []) ∧
    (∀ (t : Str) (g : Nat),
      (∀ c ∈ t, isPySpace c = true ∨ isSentPunct c = true) →
      textSentences t = [] ∧ (grammarCheck t g).1.readability_score = 50 ∧
        (grammarCheck t g).1.issues = []) ∧
    ((checkCompatibility ("".toList)).issues.any
      fun i => i.itype == "length".toList &&
        i.message == "Resume appears too short".toList) = true :=
  ⟨fun t ht => extractKeywords_ws_nil ht,
   fun r j h => matchResumeJd_empty_jd r h,
   fun t g ht => grammarCheck_degenerate g ht,
   by decide⟩

/-- C8 witness: the degenerate behaviours checked at concrete inputs — a
single space, an empty job description, and a text of spaces and periods. -/
theorem claim_C8_witness :
    extractKeywords (" ".toList) = [] ∧
    ((matchResumeJd ("Python".toList) ("".toList)).score = 0 ∧
      (matchResumeJd ("Python".toList) ("".toList)).found_keywords = [] ∧
      (matchResumeJd ("Python".toList) ("".toList)).missing_keywords = []) ∧
    (textSentences (" .. ".toList) = [] ∧
      (grammarCheck (" .. ".toList) 0).1.readability_score = 50 ∧
      (grammarCheck (" .. ".toList) 0).1.issues = []) :=
  ⟨claim_C8.1 (" ".toList) (by decide),
   claim_C8.2.1 ("Python".toList) ("".toList) (by decide),
   claim_C8.2.2.1 (" .. ".toList) 0 (by decide)⟩

/-- C9 counterexample: with the Python global random state threaded
explicitly, two calls of the impact-statement generator (and of the style
checker, whose weak-language suggestions call random.choice) on identical
text input but different random states produce different output, so the
engine is not a pure function of the text inputs alone. -/
theorem claim_C9_counterexample :
    (createImpactStatements ["aws".toList] 0).1 ≠
      (createImpactStatements ["aws".toList] 1).1 ∧
    (grammarCheck ("responsible for x".toList) 0).1.issues ≠
      (grammarCheck ("responsible for x".toList) 1).1.issues :=
  ⟨by decide, by decide⟩

/-- C9 (amended): for a fixed text everything the style checker reports
except the randomly chosen suggestion verb inside weak-language issues is
independent of the random state, and the impact statements keep the same
keywords across random states (only the sampled template texts vary). -/
theorem claim_C9 (t : Str) (g g' : Nat) (mk : List Str) :
    (grammarCheck t g).1.readability_score =
        (grammarCheck t g').1.readability_score ∧
    (grammarCheck t g).1.total_issues = (grammarCheck t g').1.total_issues ∧
    ((grammarCheck t g).1.issues).map gProj =
        ((grammarCheck t g').1.issues).map gProj ∧
    (grammarCheck t g).1.weak_phrase_count =
        (grammarCheck t g').1.weak_phrase_count ∧
    (grammarCheck t g).1.action_verb_count =
        (grammarCheck t g').1.action_verb_count ∧
    (grammarCheck t g).1.suggestions = (grammarCheck t g').1.suggestions ∧
    ((createImpactStatements mk g).1).map (fun s => s.keyword) =
      ((createImpactStatements mk g').1).map (fun s => s.keyword) := by
  obtain ⟨h1, h2, h3, h4, h5, h6⟩ := grammarCheck_state_independent t g g'
  exact ⟨h1, h2, h3, h4, h5, h6, createImpactStatements_keywords mk g g'⟩
